import Mathlib

/-!
# Verification of the rusty-path-of-building rendering core

A shallow embedding, in Lean 4, of the rendering pipeline of the
`rusty-path-of-building` repository: the subpixel binning used by glyph keys
(`src/fonts/glyph_key.rs`), the row-packing font-atlas allocator
(`src/fonts/atlas.rs`), the layout cache with generation eviction
(`src/fonts.rs`), the layered draw-primitive accumulator (`src/layers.rs`),
the frame-elision logic (`src/context.rs`), the tessellator
(`src/renderer/tessellator.rs`, `src/renderer/mesh.rs`) and the selector
parsing of the scripting entry points (`src/api/rendering.rs`).

Modelling conventions:
* `f32` scalar arithmetic is modelled by exact arithmetic on `ℚ`.  The
  operations the verified claims depend on (comparisons, `floor`, `round`,
  translation by a vector, structural equality) are exact on the dyadic
  rationals that the concrete inputs denote.
* Rust machine integers (`u32`, `usize`, `u64`, `i32`) are modelled by
  `Nat`/`Int`; the verified operations on them (cursor arithmetic, map keys)
  do not overflow at the verified inputs.
* `BTreeMap<(i32,i32), Vec<_>>` is modelled by an association list that is
  kept strictly sorted by key, which is the documented ordering semantics of
  `BTreeMap` (`into_values` yields values in ascending key order).
* `ahash`-based hashing (`util::calculate_hash`) is a deterministic pure
  function of the bytes fed to the `Hash` implementation.  We model a hash
  value by the hashed content itself: equality of modelled hash values
  coincides with equality of the hashed content.  This is sound for claims of
  the form "equal content gives equal hash"; hash collisions are not modelled.
-/

namespace RPoB

/-! ## Geometry (`src/math.rs`, `src/math/quad.rs`, `src/dpi.rs`)

`Rect` is `euclid::Box2D` (a `min` and a `max` point), `Quad` is the custom
four-point quad.  Scalars are `ℚ` (modelling `f32`). -/

/-- A 2D point (`euclid::Point2D<f32, _>`), coordinates modelled by `ℚ`. -/
structure Pt where
  x : ℚ
  y : ℚ
deriving DecidableEq, Repr

/-- A 2D vector (`euclid::Vector2D<f32, _>`). -/
structure Vec2 where
  x : ℚ
  y : ℚ
deriving DecidableEq, Repr

/-- A rectangle given by its two corners (`euclid::Box2D<f32, _>`). -/
structure Rect where
  min : Pt
  max : Pt
deriving DecidableEq, Repr

/-- Four-point quad (`math::quad::Quad<f32, _>`). -/
structure Quad where
  p0 : Pt
  p1 : Pt
  p2 : Pt
  p3 : Pt
deriving DecidableEq, Repr

def Pt.add (p : Pt) (v : Vec2) : Pt := ⟨p.x + v.x, p.y + v.y⟩

/-- `euclid::Box2D::translate`. -/
def Rect.translate (r : Rect) (v : Vec2) : Rect := ⟨r.min.add v, r.max.add v⟩

/-- `math::quad::Quad::translate`. -/
def Quad.translate (q : Quad) (v : Vec2) : Quad :=
  ⟨q.p0.add v, q.p1.add v, q.p2.add v, q.p3.add v⟩

/-- `euclid::Box2D::is_empty`: the box is empty unless `max` is strictly
greater than `min` on both axes. -/
def Rect.isEmpty (r : Rect) : Bool :=
  !(decide (r.min.x < r.max.x) && decide (r.min.y < r.max.y))

/-- `Corners::top_left` for `Rect` (`src/math.rs`): `min`. -/
def Rect.topLeft (r : Rect) : Pt := r.min

/-- `Corners::top_right`: `(max.x, min.y)`. -/
def Rect.topRight (r : Rect) : Pt := ⟨r.max.x, r.min.y⟩

/-- `Corners::bottom_left`: `(min.x, max.y)`. -/
def Rect.bottomLeft (r : Rect) : Pt := ⟨r.min.x, r.max.y⟩

/-- `Corners::bottom_right`: `max`. -/
def Rect.bottomRight (r : Rect) : Pt := r.max

/-- `Box2D::from_size`: origin zero, extent `size`. -/
def Rect.fromSize (w h : ℚ) : Rect := ⟨⟨0, 0⟩, ⟨w, h⟩⟩

/-- `Rect::default_uv()` (`src/dpi.rs`): the full `[0,1]` square. -/
def Rect.defaultUv : Rect := Rect.fromSize 1 1

/-- `Rect::white_uv()` (`src/dpi.rs`): the zero rect at the white pixel. -/
def Rect.whiteUv : Rect := ⟨⟨0, 0⟩, ⟨0, 0⟩⟩

/-- `Quad::default_uv()` (`src/dpi.rs`): the `[0,1]` square as a quad. -/
def Quad.defaultUv : Quad := ⟨⟨0, 0⟩, ⟨1, 0⟩, ⟨1, 1⟩, ⟨0, 1⟩⟩

/-- `Quad::white_uv()` (`src/dpi.rs`): all points zero. -/
def Quad.whiteUv : Quad := ⟨⟨0, 0⟩, ⟨0, 0⟩, ⟨0, 0⟩, ⟨0, 0⟩⟩

/-! ## Subpixel binning (`src/fonts/glyph_key.rs`)

`SubpixelBin::<N>::new` groups the fractional part of a glyph's x
position into `N` bins.  `f32` is modelled by `ℚ`; Rust's `f32::round`
(round half away from zero) and the saturating `as usize` cast
(`Int.toNat`) are modelled exactly. -/

/-- Rust `f32::round`: round to nearest, ties away from zero. -/
def rustRound (q : ℚ) : ℤ := if 0 ≤ q then ⌊q + 1/2⌋ else -⌊-q + 1/2⌋

/-- `SubpixelBin::<NUM_OF_BINS>::new(position)` (`src/fonts/glyph_key.rs`):

```rust
let half_bin_width = 1.0 / (NUM_OF_BINS as f32 * 2.0);
let new_position = (position + half_bin_width).floor() as i32;
let scaled_pos = ((position - position.floor()) * NUM_OF_BINS as f32).round() as usize;
let bin = scaled_pos.rem_euclid(NUM_OF_BINS);
(new_position, Self(bin))
```

Returns the integer position together with the bin index. -/
def SubpixelBin.new (numOfBins : ℕ) (position : ℚ) : ℤ × ℕ :=
  let halfBinWidth : ℚ := 1 / (numOfBins * 2)
  let newPosition : ℤ := ⌊position + halfBinWidth⌋
  let scaledPos : ℕ := (rustRound ((position - ⌊position⌋) * numOfBins)).toNat
  let bin := scaledPos % numOfBins
  (newPosition, bin)

/-! ## Font atlas (`src/fonts/atlas.rs`)

The row-packing allocator.  The pixel contents of the bitmap are not
modelled (the claims are about the allocated regions and the control
state); the image dimensions are. -/

/-- An allocated atlas region: origin and size, in pixels. -/
structure AtlasRegion where
  x : ℕ
  y : ℕ
  width : ℕ
  height : ℕ
deriving DecidableEq, Repr

/-- Two atlas regions intersect if their pixel areas overlap. -/
def AtlasRegion.intersects (a b : AtlasRegion) : Prop :=
  a.x < b.x + b.width ∧ b.x < a.x + a.width ∧
  a.y < b.y + b.height ∧ b.y < a.y + a.height

instance (a b : AtlasRegion) : Decidable (a.intersects b) := by
  unfold AtlasRegion.intersects; infer_instance

/-- The control state of `FontAtlas` (`src/fonts/atlas.rs`). -/
structure FontAtlas where
  maxTextureSide : ℕ
  imageWidth : ℕ
  imageHeight : ℕ
  cursorX : ℕ
  cursorY : ℕ
  currentRowHeight : ℕ
  dirty : Bool
  overflowed : Bool
deriving DecidableEq, Repr

namespace FontAtlas

/-- `PADDING` in `FontAtlas::allocate`. -/
def padding : ℕ := 1

/-- The height-doubling loop in `FontAtlas::allocate`:
`while new_height < required { new_height *= 2 }`. -/
def growHeight (height required : ℕ) : ℕ :=
  if height = 0 then 0
  else if height < required then growHeight (2 * height) required
  else height
termination_by required - height
decreasing_by
  have h0 : 1 ≤ height := Nat.one_le_iff_ne_zero.mpr (by assumption)
  omega

/-- The row wrap at the start of `FontAtlas::allocate`:
`if self.cursor.x + size.width > self.image.width() { new row }`. -/
def allocWrap (a : FontAtlas) (width : ℕ) : FontAtlas :=
  if a.cursorX + width > a.imageWidth then
    { a with cursorX := 0,
             cursorY := a.cursorY + a.currentRowHeight + padding,
             currentRowHeight := 0 }
  else a

/-- The overflow check / height growth in `FontAtlas::allocate`, where
`required = cursor.y + current_row_height`: on overflow the cursor resets
to the interior row `image.height() / 3`; otherwise the bitmap height
doubles until sufficient. -/
def allocGrow (a : FontAtlas) : FontAtlas :=
  if a.cursorY + a.currentRowHeight > a.maxTextureSide then
    { a with cursorX := 0, cursorY := a.imageHeight / 3, overflowed := true }
  else if a.cursorY + a.currentRowHeight > a.imageHeight then
    { a with imageHeight := growHeight a.imageHeight (a.cursorY + a.currentRowHeight) }
  else a

/-- `self.current_row_height = self.current_row_height.max(size.height)`. -/
def rowMaxed (a : FontAtlas) (height : ℕ) : FontAtlas :=
  { a with currentRowHeight := max a.currentRowHeight height }

/-- `FontAtlas::allocate(size)`: returns the allocated region and the new
atlas state — the row wrap, the running row-height maximum, the overflow
check / height growth, then the region at the cursor and the cursor
advance. -/
def allocate (a : FontAtlas) (width height : ℕ) : AtlasRegion × FontAtlas :=
  (⟨(allocGrow ((allocWrap a width).rowMaxed height)).cursorX,
    (allocGrow ((allocWrap a width).rowMaxed height)).cursorY, width, height⟩,
   { allocGrow ((allocWrap a width).rowMaxed height) with
     cursorX := (allocGrow ((allocWrap a width).rowMaxed height)).cursorX + width + padding,
     dirty := true })

/-- `FontAtlas::new(max_texture_side)`: full-width bitmap of initial height
256, followed by `initialize()` which allocates the 1×1 white pixel at the
origin. -/
def new (maxTextureSide : ℕ) : FontAtlas :=
  let a : FontAtlas :=
    { maxTextureSide := maxTextureSide
      imageWidth := maxTextureSide
      imageHeight := 256
      cursorX := 0
      cursorY := 0
      currentRowHeight := 0
      dirty := false
      overflowed := false }
  (a.allocate 1 1).2

/-- `FontAtlas::capacity()`: `1.0` once overflowed, otherwise the ratio of
used height to the maximum texture side. -/
def capacity (a : FontAtlas) : ℚ :=
  if a.overflowed then 1
  else (a.cursorY + a.currentRowHeight : ℚ) / a.maxTextureSide

/-- `FontAtlas::clear()`: reset the cursor and flags, then `initialize()`
(allocate the 1×1 white pixel at the origin).  The bitmap keeps its
dimensions (`image.fill(0)`). -/
def clear (a : FontAtlas) : FontAtlas :=
  let a := { a with cursorX := 0, cursorY := 0, currentRowHeight := 0,
                    dirty := false, overflowed := false }
  (a.allocate 1 1).2

/-- Run a sequence of `allocate` calls, collecting the returned regions. -/
def allocRun (a : FontAtlas) : List (ℕ × ℕ) → List AtlasRegion × FontAtlas
  | [] => ([], a)
  | s :: rest =>
      ((a.allocate s.1 s.2).1 :: (((a.allocate s.1 s.2).2).allocRun rest).1,
       (((a.allocate s.1 s.2).2).allocRun rest).2)

end FontAtlas

/-! ## Colors and textures (`src/color.rs`, `src/renderer/textures.rs`) -/

/-- `Srgba` (`src/color.rs`): four `u8` channels. -/
structure Srgba where
  r : ℕ
  g : ℕ
  b : ℕ
  a : ℕ
deriving DecidableEq, Repr

/-- `Srgba::TRANSPARENT`. -/
def Srgba.transparent : Srgba := ⟨0, 0, 0, 0⟩

/-- `Srgba::WHITE`. -/
def Srgba.white : Srgba := ⟨255, 255, 255, 255⟩

/-- `TextureId` (`src/renderer/textures.rs`): `pub type TextureId = u64`.
`TextureId::default()` is `0`. -/
abbrev TextureId := ℕ

/-! ## Draw primitives (`src/renderer/primitives.rs`)

Text primitives carry a shared `Layout`; the parts of `Layout` consumed by
the tessellator (`rows`, `num_of_vertices`, `num_of_indices`) are modelled,
the parley-internal shaped layout is not. -/

/-- `RasterizedGlyph` (`src/fonts/rasterizer.rs`): rect relative to the
layout origin, absolute atlas UV region, color. -/
structure RasterizedGlyph where
  rect : Rect
  uv : AtlasRegion
  color : Srgba
deriving DecidableEq, Repr

/-- `LayoutRow` (`src/fonts/layout.rs`). -/
structure LayoutRow where
  glyphs : List RasterizedGlyph
deriving DecidableEq, Repr

/-- The tessellation-relevant part of `Layout` (`src/fonts/layout.rs`). -/
structure Layout where
  jobHash : ℕ
  rows : List LayoutRow
  numOfVertices : ℕ
  numOfIndices : ℕ
deriving DecidableEq, Repr

/-- `RectTexture` (`src/renderer/primitives.rs`). -/
structure RectTexture where
  textureId : TextureId
  uv : Rect
  layerIdx : ℕ
deriving DecidableEq, Repr

/-- `QuadTexture` (`src/renderer/primitives.rs`). -/
structure QuadTexture where
  textureId : TextureId
  uv : Quad
  layerIdx : ℕ
deriving DecidableEq, Repr

/-- `RectPrimitive` (`src/renderer/primitives.rs`). -/
structure RectPrimitive where
  rect : Rect
  color : Srgba
  texture : Option RectTexture
deriving DecidableEq, Repr

/-- `RectPrimitive::translate`. -/
def RectPrimitive.translate (p : RectPrimitive) (v : Vec2) : RectPrimitive :=
  { p with rect := p.rect.translate v }

/-- `QuadPrimitive` (`src/renderer/primitives.rs`). -/
structure QuadPrimitive where
  quad : Quad
  color : Srgba
  texture : Option QuadTexture
deriving DecidableEq, Repr

/-- `QuadPrimitive::translate`. -/
def QuadPrimitive.translate (p : QuadPrimitive) (v : Vec2) : QuadPrimitive :=
  { p with quad := p.quad.translate v }

/-- `TextPrimitive` (`src/renderer/primitives.rs`). -/
structure TextPrimitive where
  pos : Pt
  layout : Layout
deriving DecidableEq, Repr

/-- `TextPrimitive::translate`: only the anchor moves. -/
def TextPrimitive.translate (p : TextPrimitive) (v : Vec2) : TextPrimitive :=
  { p with pos := p.pos.add v }

/-- `DrawPrimitive` (`src/renderer/primitives.rs`). -/
inductive DrawPrimitive where
  | rect (p : RectPrimitive)
  | quad (p : QuadPrimitive)
  | text (p : TextPrimitive)
deriving DecidableEq, Repr

/-- `DrawPrimitive::texture_id`: the texture id of a textured rect/quad,
`TextureId::default()` (= 0) otherwise (text always samples the atlas,
bound as the default texture). -/
def DrawPrimitive.textureId : DrawPrimitive → TextureId
  | .rect p => (p.texture.map (·.textureId)).getD 0
  | .quad p => (p.texture.map (·.textureId)).getD 0
  | .text _ => 0

/-- `ClippedPrimitive` (`src/renderer/primitives.rs`). -/
structure ClippedPrimitive where
  clipRect : Rect
  primitive : DrawPrimitive
deriving DecidableEq, Repr

/-! ## Layers (`src/layers.rs`)

`Layers` buckets clipped primitives per `(layer, sublayer)` key.  The
`BTreeMap<(i32,i32), Vec<ClippedPrimitive>>` is modelled by an association
list kept strictly sorted by key in the lexicographic order — the map
ordering `BTreeMap` maintains and `into_values` iterates in. -/

/-- `(layer, sublayer)` keys with the derived (lexicographic) `Ord` of
`(i32, i32)`. -/
abbrev LayerKey := ℤ × ℤ

/-- Lexicographic strict order on layer keys (the `Ord` of `(i32, i32)`). -/
def LayerKey.lt (a b : LayerKey) : Prop :=
  a.1 < b.1 ∨ (a.1 = b.1 ∧ a.2 < b.2)

instance : DecidableRel LayerKey.lt := fun a b => by
  unfold LayerKey.lt; infer_instance

/-- Lexicographic order, non-strict. -/
def LayerKey.le (a b : LayerKey) : Prop :=
  a.1 < b.1 ∨ (a.1 = b.1 ∧ a.2 ≤ b.2)

/-- `Layers` (`src/layers.rs`). -/
structure Layers where
  layers : List (LayerKey × List ClippedPrimitive)
  currentLayer : LayerKey
  viewport : Rect
  currentDrawColor : Srgba
deriving DecidableEq, Repr

namespace Layers

/-- `Layers::default()`: empty map, layer `(0,0)`, zero viewport,
default (zeroed) color. -/
def init : Layers :=
  { layers := []
    currentLayer := (0, 0)
    viewport := ⟨⟨0, 0⟩, ⟨0, 0⟩⟩
    currentDrawColor := ⟨0, 0, 0, 0⟩ }

/-- `BTreeMap::entry(key).or_default().push(p)` on the sorted association
list: append to the bucket of `key`, inserting a fresh bucket at the sorted
position if absent. -/
def btreePush (key : LayerKey) (p : ClippedPrimitive) :
    List (LayerKey × List ClippedPrimitive) → List (LayerKey × List ClippedPrimitive)
  | [] => [(key, [p])]
  | (k, ps) :: rest =>
      if key = k then (k, ps ++ [p]) :: rest
      else if LayerKey.lt key k then (key, [p]) :: (k, ps) :: rest
      else (k, ps) :: btreePush key p rest

/-- `Layers::reset`: clear the buckets, layer key back to `(0,0)`, draw
color back to `TRANSPARENT`.  (The viewport is *not* touched.) -/
def reset (l : Layers) : Layers :=
  { l with currentLayer := (0, 0), layers := [], currentDrawColor := Srgba.transparent }

/-- `Layers::consume_layers`: `mem::take` the map and flatten its values in
ascending key order.  Returns the primitive stream and the post state. -/
def consumeLayers (l : Layers) : List ClippedPrimitive × Layers :=
  (l.layers.flatMap (·.2), { l with layers := [] })

/-- Like `consume_layers`, but keeping each primitive's bucket key
(specification helper used to state the ordering property). -/
def consumeKeyed (l : Layers) : List (LayerKey × ClippedPrimitive) :=
  l.layers.flatMap fun kps => kps.2.map fun p => (kps.1, p)

/-- `Layers::set_viewport`. -/
def setViewport (l : Layers) (viewport : Rect) : Layers := { l with viewport := viewport }

/-- `Layers::set_draw_layer`. -/
def setDrawLayer (l : Layers) (layer sublayer : ℤ) : Layers :=
  { l with currentLayer := (layer, sublayer) }

/-- `Layers::set_draw_sublayer`: keeps the current layer. -/
def setDrawSublayer (l : Layers) (sublayer : ℤ) : Layers :=
  l.setDrawLayer l.currentLayer.1 sublayer

/-- `Layers::set_draw_color`. -/
def setDrawColor (l : Layers) (color : Srgba) : Layers :=
  { l with currentDrawColor := color }

/-- `Layers::push`: append to the bucket of the current layer key. -/
def push (l : Layers) (cp : ClippedPrimitive) : Layers :=
  { l with layers := btreePush l.currentLayer cp l.layers }

/-- `Layers::add_rect`: translate by the viewport origin, stamp the
viewport as clip rect, push. -/
def addRect (l : Layers) (p : RectPrimitive) : Layers :=
  let p := p.translate ⟨l.viewport.min.x, l.viewport.min.y⟩
  l.push ⟨l.viewport, .rect p⟩

/-- `Layers::add_quad`. -/
def addQuad (l : Layers) (p : QuadPrimitive) : Layers :=
  let p := p.translate ⟨l.viewport.min.x, l.viewport.min.y⟩
  l.push ⟨l.viewport, .quad p⟩

/-- `Layers::add_text`: absolute-positioned text skips the viewport
translation. -/
def addText (l : Layers) (p : TextPrimitive) (isAbsolutePosition : Bool) : Layers :=
  let p := if isAbsolutePosition then p else p.translate ⟨l.viewport.min.x, l.viewport.min.y⟩
  l.push ⟨l.viewport, .text p⟩

/-- The content fed to the hasher by `impl Hash for Layers`
(`src/layers.rs`): only `self.layers`.  `calculate_hash` is a deterministic
function of this content, so the hash value is modelled by the content
itself. -/
def getHash (l : Layers) : List (LayerKey × List ClippedPrimitive) := l.layers

end Layers

/-- One scripting-side call into `Layers` while a frame is accumulated
(the entry points of `src/layers.rs` reachable from the draw API). -/
inductive LayersCmd where
  | setViewport (viewport : Rect)
  | setDrawLayer (layer sublayer : ℤ)
  | setDrawSublayer (sublayer : ℤ)
  | setDrawColor (color : Srgba)
  | addRect (p : RectPrimitive)
  | addQuad (p : QuadPrimitive)
  | addText (p : TextPrimitive) (isAbsolutePosition : Bool)
deriving DecidableEq, Repr

/-- Interpret one call. -/
def Layers.runCmd (l : Layers) : LayersCmd → Layers
  | .setViewport v => l.setViewport v
  | .setDrawLayer a b => l.setDrawLayer a b
  | .setDrawSublayer b => l.setDrawSublayer b
  | .setDrawColor c => l.setDrawColor c
  | .addRect p => l.addRect p
  | .addQuad p => l.addQuad p
  | .addText p abs => l.addText p abs

/-- Interpret a call sequence. -/
def Layers.run (l : Layers) : List LayersCmd → Layers
  | [] => l
  | c :: cs => (l.runCmd c).run cs

/-- The insertion-order trace of a call sequence: the clipped primitives in
the order they were pushed, each with the layer key it was bucketed under.
Mirrors `runCmd` exactly, but records pushes instead of bucketing them. -/
def Layers.trace (l : Layers) : List LayersCmd → List (LayerKey × ClippedPrimitive)
  | [] => []
  | c :: cs =>
      (match c with
        | .addRect p =>
            [(l.currentLayer,
              ⟨l.viewport, .rect (p.translate ⟨l.viewport.min.x, l.viewport.min.y⟩)⟩)]
        | .addQuad p =>
            [(l.currentLayer,
              ⟨l.viewport, .quad (p.translate ⟨l.viewport.min.x, l.viewport.min.y⟩)⟩)]
        | .addText p abs =>
            [(l.currentLayer,
              ⟨l.viewport, .text (if abs then p
                else p.translate ⟨l.viewport.min.x, l.viewport.min.y⟩)⟩)]
        | _ => []) ++ (l.runCmd c).trace cs

/-! ## Mesh (`src/renderer/mesh.rs`) -/

/-- `Vertex` (`src/renderer/mesh.rs`). -/
structure Vertex where
  pos : Pt
  uv : Pt
  color : Srgba
  layerIdx : ℕ
deriving DecidableEq, Repr

/-- `Mesh` (`src/renderer/mesh.rs`). -/
structure Mesh where
  vertices : List Vertex
  indices : List ℕ
  textureId : TextureId
deriving DecidableEq, Repr

namespace Mesh

/-- `Mesh::default()`. -/
def empty : Mesh := ⟨[], [], 0⟩

/-- `Mesh::add_rect`: 6 indices for two triangles over 4 new corner
vertices, in the order top-left, top-right, bottom-right, bottom-left. -/
def addRect (m : Mesh) (rect : Rect) (uv : Rect) (color : Srgba) (layerIdx : ℕ) : Mesh :=
  let i := m.vertices.length
  { m with
    indices := m.indices ++ [i, i + 1, i + 3, i + 1, i + 2, i + 3]
    vertices := m.vertices ++
      [⟨rect.topLeft, uv.topLeft, color, layerIdx⟩,
       ⟨rect.topRight, uv.topRight, color, layerIdx⟩,
       ⟨rect.bottomRight, uv.bottomRight, color, layerIdx⟩,
       ⟨rect.bottomLeft, uv.bottomLeft, color, layerIdx⟩] }

/-- `Mesh::add_quad`: 6 indices over the 4 quad points `p0..p3`. -/
def addQuad (m : Mesh) (quad : Quad) (uv : Quad) (color : Srgba) (layerIdx : ℕ) : Mesh :=
  let i := m.vertices.length
  { m with
    indices := m.indices ++ [i, i + 1, i + 3, i + 1, i + 2, i + 3]
    vertices := m.vertices ++
      [⟨quad.p0, uv.p0, color, layerIdx⟩,
       ⟨quad.p1, uv.p1, color, layerIdx⟩,
       ⟨quad.p2, uv.p2, color, layerIdx⟩,
       ⟨quad.p3, uv.p3, color, layerIdx⟩] }

/-- `Mesh::is_empty`. -/
def isEmpty (m : Mesh) : Bool := m.vertices.isEmpty && m.indices.isEmpty

end Mesh

/-- `ClippedMesh` (`src/renderer/mesh.rs`). -/
structure ClippedMesh where
  clipRect : Rect
  mesh : Mesh
deriving DecidableEq, Repr

/-! ## Tessellator (`src/renderer/tessellator.rs`)

`Tessellator`'s only field is a capacity hint (`last_clipped_meshes_size`),
which does not affect the produced meshes; the conversion functions are
modelled as pure functions on the output list. -/

/-- The font atlas texture dimensions passed to the tessellator. -/
structure FontAtlasSize where
  width : ℕ
  height : ℕ
deriving DecidableEq, Repr

/-- `Normalize::normalize` for an atlas region against the atlas size:
divide both corners componentwise (`src/dpi.rs`). -/
def AtlasRegion.normalize (r : AtlasRegion) (size : FontAtlasSize) : Rect :=
  ⟨⟨(r.x : ℚ) / size.width, (r.y : ℚ) / size.height⟩,
   ⟨((r.x + r.width : ℕ) : ℚ) / size.width, ((r.y + r.height : ℕ) : ℚ) / size.height⟩⟩

namespace Tessellator

/-- `Tessellator::convert_rect_primitive`: untextured rects use the default
texture id, the full-white UV rect and layer 0. -/
def convertRectPrimitive (p : RectPrimitive) (out : Mesh) : Mesh :=
  let (textureId, uv, layerIdx) :=
    match p.texture with
    | some t => (t.textureId, t.uv, t.layerIdx)
    | none => (0, Rect.whiteUv, 0)
  let out := out.addRect p.rect uv p.color layerIdx
  { out with textureId := textureId }

/-- `Tessellator::convert_quad_primitive`. -/
def convertQuadPrimitive (p : QuadPrimitive) (out : Mesh) : Mesh :=
  let (textureId, uv, layerIdx) :=
    match p.texture with
    | some t => (t.textureId, t.uv, t.layerIdx)
    | none => (0, Quad.whiteUv, 0)
  let out := out.addQuad p.quad uv p.color layerIdx
  { out with textureId := textureId }

/-- `Tessellator::convert_text_primitive`: one rect per resolved glyph,
translated to the layout anchor, with the glyph's atlas UV normalized
against the atlas dimensions.  Does not touch the mesh's texture id. -/
def convertTextPrimitive (p : TextPrimitive) (atlasSize : FontAtlasSize) (out : Mesh) : Mesh :=
  if p.layout.rows.isEmpty then out
  else
    p.layout.rows.foldl
      (fun out row =>
        row.glyphs.foldl
          (fun out glyph =>
            out.addRect (glyph.rect.translate ⟨p.pos.x, p.pos.y⟩)
              (glyph.uv.normalize atlasSize) glyph.color 0)
          out)
      out

/-- Dispatch on the primitive kind (the `match` in
`convert_clipped_primitive`). -/
def convertPrimitive (p : DrawPrimitive) (atlasSize : FontAtlasSize) (out : Mesh) : Mesh :=
  match p with
  | .rect p => convertRectPrimitive p out
  | .quad p => convertQuadPrimitive p out
  | .text p => convertTextPrimitive p atlasSize out

/-- The new-mesh test in `Tessellator::convert_clipped_primitive`: starts
a fresh mesh when the output is empty or the last batch's clip rect or
texture id differs from the incoming primitive's. -/
def startNewMesh (out : List ClippedMesh) (cp : ClippedPrimitive) : Bool :=
  match out.getLast? with
  | none => true
  | some last =>
      !(decide (last.clipRect = cp.clipRect) &&
        decide (last.mesh.textureId = cp.primitive.textureId))

/-- The tail of `Tessellator::convert_clipped_primitive`: convert the
primitive into the last mesh (`out_clipped_meshes.last_mut().unwrap()`) and
pop the last batch if it ended up empty — the renderer does not support
empty meshes. -/
def convertIntoLast (atlasSize : FontAtlasSize) (out : List ClippedMesh)
    (cp : ClippedPrimitive) : List ClippedMesh :=
  match out.getLast? with
  | none => out  -- unreachable: the caller guarantees `out` is nonempty
  | some last =>
      if (convertPrimitive cp.primitive atlasSize last.mesh).isEmpty then out.dropLast
      else out.dropLast
        ++ [⟨last.clipRect, convertPrimitive cp.primitive atlasSize last.mesh⟩]

/-- `Tessellator::convert_clipped_primitive`: drop fully clipped
primitives, start a new mesh on a clip-rect or texture-id change, convert
into the last mesh, and pop the last mesh if it ended up empty. -/
def convertClippedPrimitive (atlasSize : FontAtlasSize)
    (out : List ClippedMesh) (cp : ClippedPrimitive) : List ClippedMesh :=
  if cp.clipRect.isEmpty then out
  else convertIntoLast atlasSize
    (if startNewMesh out cp then out ++ [⟨cp.clipRect, Mesh.empty⟩] else out) cp

/-- `Tessellator::convert_clipped_primitives`. -/
def convertClippedPrimitives (prims : List ClippedPrimitive)
    (atlasSize : FontAtlasSize) : List ClippedMesh :=
  prims.foldl (convertClippedPrimitive atlasSize) []

end Tessellator

/-! ## Layout cache (`src/fonts.rs`)

`LayoutCache` keyed by the `u64` job hash; the `nohash_hasher::IntMap` is
modelled by an (unordered) association list.  The generation counter is a
`u32` incremented with `wrapping_add`, modelled by `% 2^32`. -/

/-- `CachedLayout` (`src/fonts.rs`). -/
structure CachedLayout where
  generation : ℕ
  layout : Layout
deriving DecidableEq, Repr

/-- `LayoutCache` (`src/fonts.rs`). -/
structure LayoutCache where
  currentGeneration : ℕ
  cache : List (ℕ × CachedLayout)
deriving DecidableEq, Repr

namespace LayoutCache

/-- `LayoutCache::default()`. -/
def init : LayoutCache := ⟨0, []⟩

/-- Association-list lookup (`IntMap` find by `u64` key). -/
def findEntry (c : LayoutCache) (hash : ℕ) : Option CachedLayout :=
  (c.cache.find? (·.1 = hash)).map (·.2)

/-- `LayoutCache::get`: on a hit, stamp the entry with the current
generation and return the layout. -/
def get (c : LayoutCache) (hash : ℕ) : Option Layout × LayoutCache :=
  match c.findEntry hash with
  | some entry =>
      (some entry.layout,
       { c with cache := c.cache.map fun e =>
          if e.1 = hash then (e.1, { e.2 with generation := c.currentGeneration }) else e })
  | none => (none, c)

/-- `LayoutCache::insert`: insert or replace, stamped with the current
generation. -/
def insert (c : LayoutCache) (hash : ℕ) (layout : Layout) : LayoutCache :=
  if (c.cache.find? (·.1 = hash)).isSome then
    { c with cache := c.cache.map fun e =>
        if e.1 = hash then (e.1, ⟨c.currentGeneration, layout⟩) else e }
  else
    { c with cache := c.cache ++ [(hash, ⟨c.currentGeneration, layout⟩)] }

/-- `LayoutCache::flush`: retain entries stamped with the current
generation, then advance the generation (`wrapping_add(1)` on `u32`). -/
def flush (c : LayoutCache) : LayoutCache :=
  { currentGeneration := (c.currentGeneration + 1) % 2 ^ 32
    cache := c.cache.filter (·.2.generation = c.currentGeneration) }

/-- `LayoutCache::clear`. -/
def clear (c : LayoutCache) : LayoutCache := { c with cache := [] }

/-- The cache-level effect of `Fonts::layout` (`src/fonts.rs`): look up the
job hash; on a miss build the layout and insert it.  The built layout is a
parameter (shaping is external); what is verified is the cache behaviour. -/
def query (c : LayoutCache) (hash : ℕ) (built : Layout) : Layout × LayoutCache :=
  match c.get hash with
  | (some cached, c') => (cached, c')
  | (none, c') => (built, c'.insert hash built)

/-- Run a frame's worth of `Fonts::layout` calls. -/
def runQueries (c : LayoutCache) : List (ℕ × Layout) → LayoutCache
  | [] => c
  | q :: qs => (c.query q.1 q.2).2.runQueries qs

end LayoutCache

/-! ## Glyph rasterizer cache state (`src/fonts/rasterizer.rs`)

Only the cache-clearing behaviour is verified, so keys are modelled
opaquely (by their hashable content's identity). -/

/-- The cache state of `GlyphRasterizer` (`src/fonts/rasterizer.rs`):
swash key cache, interned style ids, next style id, cached glyphs. -/
structure GlyphRasterizer where
  swashKeys : List ((ℕ × ℕ) × (ℕ × ℕ))
  styleIds : List (ℕ × ℕ)
  nextStyleId : ℕ
  cachedGlyphs : List (ℕ × Option (AtlasRegion × (ℤ × ℤ)))
deriving DecidableEq, Repr

/-- `GlyphRasterizer::clear`: drop the swash keys, the interned style ids
(resetting the id counter) and the cached glyphs. -/
def GlyphRasterizer.clear (_ : GlyphRasterizer) : GlyphRasterizer := ⟨[], [], 0, []⟩

/-! ## Fonts (`src/fonts.rs`) -/

/-- The cache-and-atlas state of `Fonts` (`src/fonts.rs`). -/
structure Fonts where
  atlas : FontAtlas
  glyphRasterizer : GlyphRasterizer
  layoutCache : LayoutCache
deriving DecidableEq, Repr

namespace Fonts

/-- `Fonts::clear_atlas`: clear the atlas and invalidate the caches that
depend on atlas state. -/
def clearAtlas (f : Fonts) : Fonts :=
  { f with atlas := f.atlas.clear
           glyphRasterizer := f.glyphRasterizer.clear
           layoutCache := f.layoutCache.clear }

/-- `Fonts::begin_frame`: recreate the atlas when it is too full or
overflowed (capacity above 0.9), then flush unused layouts. -/
def beginFrame (f : Fonts) : Fonts :=
  let f := if f.atlas.capacity > 9/10 then f.clearAtlas else f
  { f with layoutCache := f.layoutCache.flush }

end Fonts

/-! ## Context frame sequencing (`src/context.rs`)

`Context::begin_frame` resets `Layers` and sets the viewport from the
screen size; `Context::end_frame` hashes the layers, compares against the
previous frame's hash and skips rendering when nothing changed and no
texture deltas are pending. -/

/-- The outcome of `Context::end_frame` (`RenderJob`). -/
inductive RenderJob where
  | render (meshes : List ClippedMesh)
  | skip
deriving DecidableEq, Repr

/-- The frame-elision state of `Context` (`src/context.rs`).  The layers
hash is modelled by the hashed content (see the module comment). -/
structure Context where
  layers : Layers
  previousLayersHash : List (LayerKey × List ClippedPrimitive)
  forceRender : Bool
  fontAtlasSize : FontAtlasSize
deriving DecidableEq, Repr

namespace Context

/-- `Context::begin_frame` restricted to `Layers`: `layers.reset()`
followed by `reset_viewport()` (viewport from the screen size). -/
def beginFrameLayers (l : Layers) (screenViewport : Rect) : Layers :=
  (l.reset).setViewport screenViewport

/-- `Context::end_frame` (`src/context.rs`): compute the layers hash,
elide the frame when it equals the previous hash and no texture deltas are
pending (`elide_frame && !force_render`); otherwise consume the layers and
tessellate (the source's intermediate `let` bindings are inlined). -/
def endFrame (c : Context) (texturesDeltaEmpty : Bool) : RenderJob × Context :=
  if decide (c.layers.getHash = c.previousLayersHash) && texturesDeltaEmpty
      && !c.forceRender then
    (.skip, c)
  else
    (.render (Tessellator.convertClippedPrimitives (c.layers.consumeLayers).1
        c.fontAtlasSize),
     { c with forceRender := false, previousLayersHash := c.layers.getHash,
              layers := (c.layers.consumeLayers).2 })

/-- One full frame at the `Context` level: `begin_frame` (layers reset +
viewport), the scripted draw calls, then `end_frame`. -/
def runFrame (c : Context) (screenViewport : Rect) (cmds : List LayersCmd)
    (texturesDeltaEmpty : Bool) : RenderJob × Context :=
  let l := (beginFrameLayers c.layers screenViewport).run cmds
  endFrame { c with layers := l } texturesDeltaEmpty

end Context

/-! ## Scripting-layer selector parsing (`src/api/rendering.rs`) -/

/-- `PoBTextAlignment` (`src/api/rendering.rs`). -/
inductive PoBTextAlignment where
  | left | center | right | centerX | rightX
deriving DecidableEq, Repr

/-- `PoBFontType` (`src/api/rendering.rs`). -/
inductive PoBFontType where
  | fixed | var | varBold | fontinSmallcaps | fontinSmallcapsItalic | fontin | fontinItalic
deriving DecidableEq, Repr

/-- `FromStr for PoBTextAlignment`: the five exact selector strings; any
other string is a typed parse error. -/
def PoBTextAlignment.fromStr (s : String) : Except String PoBTextAlignment :=
  if s = "LEFT" then .ok .left
  else if s = "CENTER" then .ok .center
  else if s = "RIGHT" then .ok .right
  else if s = "CENTER_X" then .ok .centerX
  else if s = "RIGHT_X" then .ok .rightX
  else .error (s ++ " is not a valid TextFontType variant")

/-- `FromStr for PoBFontType`: the seven exact selector strings; any other
string is a typed parse error. -/
def PoBFontType.fromStr (s : String) : Except String PoBFontType :=
  if s = "FIXED" then .ok .fixed
  else if s = "VAR" then .ok .var
  else if s = "VAR BOLD" then .ok .varBold
  else if s = "FONTIN SC" then .ok .fontinSmallcaps
  else if s = "FONTIN SC ITALIC" then .ok .fontinSmallcapsItalic
  else if s = "FONTIN" then .ok .fontin
  else if s = "FONTIN ITALIC" then .ok .fontinItalic
  else .error (s ++ " is not a valid TextFontType variant")

/-- How a text entry point reacts to its selector arguments: it proceeds,
panics (a Rust `panic!`, aborting the Lua call without a typed error
value), or returns a typed parse error to the caller. -/
inductive SelectorOutcome where
  | proceeded (alignment : Option PoBTextAlignment) (fontType : PoBFontType)
  | panicked (msg : String)
  | parseError (msg : String)
deriving DecidableEq, Repr

/-- Whether the outcome is a typed parse error reported to the caller. -/
def SelectorOutcome.isParseError : SelectorOutcome → Bool
  | .parseError _ => true
  | _ => false

/-- The selector handling of `draw_string` (`src/api/rendering.rs`):

```rust
let alignment = match alignment.parse::<PoBTextAlignment>() {
    Ok(alignment) => alignment,
    Err(_) => panic!("Invalid alignment"),
};
let font_type = match font_type.parse::<PoBFontType>() {
    Ok(font_type) => font_type,
    Err(_) => panic!("Invalid font type"),
};
``` -/
def drawStringSelectors (alignment fontType : String) : SelectorOutcome :=
  match PoBTextAlignment.fromStr alignment with
  | .error _ => .panicked "Invalid alignment"
  | .ok a =>
      match PoBFontType.fromStr fontType with
      | .error _ => .panicked "Invalid font type"
      | .ok f => .proceeded (some a) f

/-- The selector handling of `get_string_width` (`src/api/rendering.rs`):
panics on a malformed font type. -/
def getStringWidthSelectors (fontType : String) : SelectorOutcome :=
  match PoBFontType.fromStr fontType with
  | .error _ => .panicked "Invalid font type"
  | .ok f => .proceeded none f

/-- The selector handling of `get_index_at_cur` (`src/api/rendering.rs`):
`font_type.parse::<PoBFontType>()?` propagates the typed error to the Lua
caller. -/
def getIndexAtCurSelectors (fontType : String) : SelectorOutcome :=
  match PoBFontType.fromStr fontType with
  | .error e => .parseError e
  | .ok f => .proceeded none f

/-! ## Specification helpers -/

/-- The bucket stored under `k` in a `BTreeMap` association list (`[]` when
absent). -/
def findBucket (k : LayerKey) :
    List (LayerKey × List ClippedPrimitive) → List ClippedPrimitive
  | [] => []
  | (k', ps) :: rest => if k = k' then ps else findBucket k rest

/-- Structural well-formedness of a mesh as consumed by the GPU renderer:
nonempty, quad-granular (4 vertices / 6 indices per quad), and all indices
in bounds. -/
def Mesh.Wf (m : Mesh) : Prop :=
  0 < m.vertices.length ∧
  m.vertices.length % 4 = 0 ∧
  m.indices.length = 6 * (m.vertices.length / 4) ∧
  ∀ i ∈ m.indices, i < m.vertices.length

/-- Mesh shape invariant without the nonemptiness requirement (holds of
meshes while they are being filled, before the empty-batch pop). -/
def Mesh.Quadish (m : Mesh) : Prop :=
  m.vertices.length % 4 = 0 ∧
  m.indices.length = 6 * (m.vertices.length / 4) ∧
  ∀ i ∈ m.indices, i < m.vertices.length

/-- A region lies behind the allocator's write frontier: either entirely in
an already finished row, or in the open row strictly left of the cursor. -/
def FontAtlas.behindFrontier (a : FontAtlas) (r : AtlasRegion) : Prop :=
  r.y + r.height ≤ a.cursorY ∨
  (r.y = a.cursorY ∧ r.y + r.height ≤ a.cursorY + a.currentRowHeight ∧
   r.x + r.width ≤ a.cursorX)

/-- The layout under `hash` was requested (via `Fonts::layout`) during the
current frame: an entry for it exists and every entry under that key is
stamped with the current generation. -/
def LayoutCache.freshlyStamped (c : LayoutCache) (hash : ℕ) : Prop :=
  (∀ e ∈ c.cache, e.1 = hash → e.2.generation = c.currentGeneration) ∧
  ∃ e ∈ c.cache, e.1 = hash

/-! # Theorems -/

/-! ## C6 — subpixel binning -/

/-- Claim C6: for every input `x` and bin count `N > 0`,
`SubpixelBin::<N>::new(x)` returns integer part `⌊x + 0.5/N⌋` and bin index
`round(frac(x) * N) mod N`, and the eight documented test vectors hold
(`f32` arithmetic is modelled exactly on `ℚ`; Rust's round-half-away-from-
zero agrees with `round` on the nonnegative values produced here). -/
theorem subpixelBin_contract :
    (∀ (numOfBins : ℕ) (x : ℚ), 0 < numOfBins →
        SubpixelBin.new numOfBins x =
          (⌊x + 1 / (2 * (numOfBins : ℚ))⌋,
           (round (Int.fract x * numOfBins)).toNat % numOfBins)) ∧
    SubpixelBin.new 4 (314/100) = (3, 1) ∧
    SubpixelBin.new 4 (11/100) = (0, 0) ∧
    SubpixelBin.new 4 (-8/10) = (-1, 1) ∧
    SubpixelBin.new 2 (24/100) = (0, 0) ∧
    SubpixelBin.new 2 (26/100) = (0, 1) ∧
    SubpixelBin.new 2 (76/100) = (1, 0) ∧
    SubpixelBin.new 2 (-76/100) = (-1, 0) ∧
    SubpixelBin.new 2 (-25/100) = (0, 0) := by
  refine ⟨?_, ?_, ?_, ?_, ?_, ?_, ?_, ?_, ?_⟩
  · intro numOfBins x _
    unfold SubpixelBin.new rustRound
    have hfr : (0 : ℚ) ≤ (x - ⌊x⌋) * numOfBins :=
      mul_nonneg (sub_nonneg.mpr (Int.floor_le x)) (by positivity)
    rw [if_pos hfr]
    refine Prod.ext ?_ ?_
    · show ⌊x + 1 / ((numOfBins : ℚ) * 2)⌋ = ⌊x + 1 / (2 * (numOfBins : ℚ))⌋
      rw [mul_comm]
    · show (⌊(x - ⌊x⌋) * numOfBins + 1/2⌋).toNat % numOfBins =
        (round (Int.fract x * numOfBins)).toNat % numOfBins
      rw [round_eq, Int.fract]
  all_goals with_unfolding_all decide

theorem subpixelBin_contract_witness :
    0 < 4 ∧ SubpixelBin.new 4 (1/2) =
      (⌊(1/2 : ℚ) + 1 / (2 * ((4 : ℕ) : ℚ))⌋,
       (round (Int.fract (1/2 : ℚ) * (4 : ℕ))).toNat % 4) :=
  ⟨by decide, subpixelBin_contract.1 4 (1/2) (by decide)⟩

/-! ## C9 — malformed selector handling -/

/-- Claim C9 (counterexample): the claim says every malformed selector is
reported as a *typed parse error to the caller*; but `draw_string` panics
(`panic!("Invalid alignment")`) on the malformed alignment selector "BAD"
instead of returning a typed error. -/
theorem drawString_malformed_alignment_panics :
    drawStringSelectors "BAD" "FIXED" = SelectorOutcome.panicked "Invalid alignment" ∧
    (drawStringSelectors "BAD" "FIXED").isParseError = false := by
  constructor <;> decide

/-- Claim C9 (amended): malformed alignment/font-type selectors are never
silently defaulted — `get_index_at_cur` reports a typed parse error to the
caller, while `draw_string` and `get_string_width` panic; every entry point
proceeds only with successfully parsed selector values. -/
theorem malformed_selectors_never_defaulted (a f : String) :
    (∀ e, PoBTextAlignment.fromStr a = .error e →
        drawStringSelectors a f = .panicked "Invalid alignment") ∧
    (∀ e, PoBFontType.fromStr f = .error e →
        getStringWidthSelectors f = .panicked "Invalid font type" ∧
        getIndexAtCurSelectors f = .parseError e ∧
        ∀ al, PoBTextAlignment.fromStr a = .ok al →
          drawStringSelectors a f = .panicked "Invalid font type") ∧
    (∀ oa ft, drawStringSelectors a f = .proceeded oa ft →
        ∃ al, PoBTextAlignment.fromStr a = .ok al ∧ oa = some al ∧
          PoBFontType.fromStr f = .ok ft) ∧
    (∀ oa ft, getStringWidthSelectors f = .proceeded oa ft →
        PoBFontType.fromStr f = .ok ft) ∧
    (∀ oa ft, getIndexAtCurSelectors f = .proceeded oa ft →
        PoBFontType.fromStr f = .ok ft) := by
  unfold drawStringSelectors getStringWidthSelectors getIndexAtCurSelectors
  refine ⟨?_, ?_, ?_, ?_, ?_⟩
  · intro e he
    rw [he]
  · intro e he
    rw [he]
    rcases ha : PoBTextAlignment.fromStr a with e' | al
    · exact ⟨rfl, rfl, by intro al hal; cases hal⟩
    · exact ⟨rfl, rfl, by intro al' _; rfl⟩
  · intro oa ft h
    rcases ha : PoBTextAlignment.fromStr a with e' | al
    · rw [ha] at h; cases h
    · rw [ha] at h
      rcases hf : PoBFontType.fromStr f with e' | ft'
      · rw [hf] at h; cases h
      · rw [hf] at h
        cases h
        exact ⟨al, rfl, rfl, rfl⟩
  · intro oa ft h
    rcases hf : PoBFontType.fromStr f with e' | ft'
    · rw [hf] at h; cases h
    · rw [hf] at h; cases h; rfl
  · intro oa ft h
    rcases hf : PoBFontType.fromStr f with e' | ft'
    · rw [hf] at h; cases h
    · rw [hf] at h; cases h; rfl

theorem malformed_selectors_never_defaulted_witness :
    PoBFontType.fromStr "BOGUS" = .error "BOGUS is not a valid TextFontType variant" ∧
    (getStringWidthSelectors "BOGUS" = .panicked "Invalid font type" ∧
     getIndexAtCurSelectors "BOGUS" = .parseError "BOGUS is not a valid TextFontType variant" ∧
     ∀ al, PoBTextAlignment.fromStr "LEFT" = .ok al →
       drawStringSelectors "LEFT" "BOGUS" = .panicked "Invalid font type") :=
  ⟨by rfl,
   (malformed_selectors_never_defaulted "LEFT" "BOGUS").2.1
     "BOGUS is not a valid TextFontType variant" (by rfl)⟩

/-! ## C8 — state after `consume_layers` -/

/-- Claim C8 (counterexample): `consume_layers` does *not* clear all
`Layers` state — from a state with layer key `(1,2)`, a nonzero viewport
and a nonzero draw color, the post-`consume_layers` state retains all
three (only the buckets are taken). -/
theorem consumeLayers_retains_state :
    (Layers.consumeLayers
        ⟨[], (1, 2), ⟨⟨1, 2⟩, ⟨3, 4⟩⟩, ⟨9, 9, 9, 9⟩⟩).2.currentLayer = (1, 2) ∧
    ((1 : ℤ), (2 : ℤ)) ≠ ((0 : ℤ), (0 : ℤ)) ∧
    (Layers.consumeLayers
        ⟨[], (1, 2), ⟨⟨1, 2⟩, ⟨3, 4⟩⟩, ⟨9, 9, 9, 9⟩⟩).2.viewport = ⟨⟨1, 2⟩, ⟨3, 4⟩⟩ ∧
    (Rect.mk ⟨1, 2⟩ ⟨3, 4⟩) ≠ ⟨⟨0, 0⟩, ⟨0, 0⟩⟩ ∧
    (Layers.consumeLayers
        ⟨[], (1, 2), ⟨⟨1, 2⟩, ⟨3, 4⟩⟩, ⟨9, 9, 9, 9⟩⟩).2.currentDrawColor = ⟨9, 9, 9, 9⟩ ∧
    (Srgba.mk 9 9 9 9) ≠ Srgba.transparent := by
  refine ⟨rfl, by decide, rfl, ?_, rfl, by decide⟩
  intro h
  have : (1 : ℚ) = 0 := congrArg (fun r => r.min.x) h
  exact one_ne_zero this

/-- Claim C8 (amended): `consume_layers` empties the layer buckets but
leaves the current layer key, the viewport and the draw color untouched;
those are re-initialized by `Layers::reset` plus `Context::reset_viewport`
in the *next* `Context::begin_frame`, which makes the start-of-frame
`Layers` state independent of anything left over from the previous
frame. -/
theorem consumeLayers_clears_only_buckets (l : Layers) (screen : Rect) :
    (l.consumeLayers).2.layers = [] ∧
    (l.consumeLayers).2.currentLayer = l.currentLayer ∧
    (l.consumeLayers).2.viewport = l.viewport ∧
    (l.consumeLayers).2.currentDrawColor = l.currentDrawColor ∧
    Context.beginFrameLayers (l.consumeLayers).2 screen
      = Context.beginFrameLayers Layers.init screen :=
  ⟨rfl, rfl, rfl, rfl, rfl⟩

/-! ## C2 — frame elision -/

theorem Context.endFrame_previousLayersHash (c : Context) (d : Bool) :
    ((c.endFrame d).2).previousLayersHash = c.layers.getHash := by
  unfold Context.endFrame
  split
  · next h =>
    simp only [Bool.and_eq_true, decide_eq_true_eq] at h
    exact h.1.1.symm
  · rfl

theorem Context.endFrame_forceRender (c : Context) (d : Bool)
    (h : c.forceRender = false) : ((c.endFrame d).2).forceRender = false := by
  unfold Context.endFrame
  split
  · exact h
  · rfl


/-- Claim C2: if two consecutive frames issue identical draw-call
sequences and no texture deltas are pending in either frame, the layers
content hashed by `Layers::get_hash` at the two `end_frame`s is identical,
and the second `end_frame` elides the frame (`RenderJob::Skip`: no
tessellation, no GPU submission).  `force_render` is `false`: no code in
the repository ever sets `Context::force_render` to `true` (its only
writes are the `false` initializer and the reset in `end_frame`). -/
theorem frame_elision_identical_frames (c : Context) (screen : Rect)
    (cmds : List LayersCmd) (hforce : c.forceRender = false) :
    (Layers.run (Context.beginFrameLayers c.layers screen) cmds).getHash
      = (Layers.run
          (Context.beginFrameLayers (c.runFrame screen cmds true).2.layers screen)
          cmds).getHash ∧
    ((c.runFrame screen cmds true).2.runFrame screen cmds true).1 = RenderJob.skip := by
  constructor
  · rfl
  · have hprev : (c.runFrame screen cmds true).2.previousLayersHash
        = (Layers.run (Context.beginFrameLayers c.layers screen) cmds).getHash :=
      Context.endFrame_previousLayersHash
        { c with layers := (Context.beginFrameLayers c.layers screen).run cmds } true
    have hforce1 : (c.runFrame screen cmds true).2.forceRender = false :=
      Context.endFrame_forceRender
        { c with layers := (Context.beginFrameLayers c.layers screen).run cmds } true hforce
    show (Context.endFrame
        { (c.runFrame screen cmds true).2 with
          layers := Layers.run
            (Context.beginFrameLayers (c.runFrame screen cmds true).2.layers screen) cmds }
        true).1 = RenderJob.skip
    unfold Context.endFrame
    have hashes : (Layers.run
          (Context.beginFrameLayers (c.runFrame screen cmds true).2.layers screen)
          cmds).getHash
        = (c.runFrame screen cmds true).2.previousLayersHash := by
      rw [hprev]; rfl
    simp only [Layers.getHash] at hashes
    simp [Layers.getHash, hashes, hforce1]

theorem frame_elision_identical_frames_witness :
    (Context.mk Layers.init [] false ⟨16, 16⟩).forceRender = false ∧
    (((Context.mk Layers.init [] false ⟨16, 16⟩).runFrame
          ⟨⟨0, 0⟩, ⟨800, 600⟩⟩
          [LayersCmd.addRect ⟨⟨⟨0, 0⟩, ⟨10, 10⟩⟩, ⟨255, 0, 0, 255⟩, none⟩]
          true).2.runFrame
        ⟨⟨0, 0⟩, ⟨800, 600⟩⟩
        [LayersCmd.addRect ⟨⟨⟨0, 0⟩, ⟨10, 10⟩⟩, ⟨255, 0, 0, 255⟩, none⟩]
        true).1 = RenderJob.skip :=
  ⟨rfl,
   (frame_elision_identical_frames (Context.mk Layers.init [] false ⟨16, 16⟩)
      ⟨⟨0, 0⟩, ⟨800, 600⟩⟩
      [LayersCmd.addRect ⟨⟨⟨0, 0⟩, ⟨10, 10⟩⟩, ⟨255, 0, 0, 255⟩, none⟩] rfl).2⟩

/-! ## C5 — layout cache generation eviction -/

namespace LayoutCache

theorem query_currentGeneration (c : LayoutCache) (k : ℕ) (l : Layout) :
    (c.query k l).2.currentGeneration = c.currentGeneration := by
  unfold query get insert
  rcases hf : c.findEntry k with _ | e <;> simp [hf]
  split <;> rfl

theorem runQueries_currentGeneration (c : LayoutCache) (qs : List (ℕ × Layout)) :
    (c.runQueries qs).currentGeneration = c.currentGeneration := by
  induction qs generalizing c with
  | nil => rfl
  | cons q qs ih => rw [runQueries, ih, query_currentGeneration]

theorem query_stamps (c : LayoutCache) (h : ℕ) (l : Layout) :
    (c.query h l).2.freshlyStamped h := by
  unfold query get
  rcases hf : c.findEntry h with _ | e
  · -- miss: `insert` appends a freshly stamped entry
    have hnone : c.cache.find? (fun e => e.1 = h) = none := by
      unfold findEntry at hf
      exact Option.map_eq_none.mp hf
    simp only []
    unfold insert
    rw [hnone]
    simp only [Option.isSome_none, Bool.false_eq_true, if_false]
    constructor
    · intro e' he' hk
      rcases List.mem_append.mp he' with hmem | hmem
      · exact absurd (decide_eq_true hk) (List.find?_eq_none.mp hnone e' hmem)
      · simp only [List.mem_singleton] at hmem
        subst hmem
        rfl
    · exact ⟨(h, ⟨c.currentGeneration, l⟩), List.mem_append.mpr (.inr (by simp)), rfl⟩
  · -- hit: `get` stamps every entry under the key
    simp only []
    constructor
    · intro e' he' hk
      rcases List.mem_map.mp he' with ⟨a, ha, rfl⟩
      by_cases hak : a.1 = h
      · simp only [if_pos hak]
      · rw [if_neg hak] at hk
        exact absurd hk hak
    · unfold findEntry at hf
      rcases Option.map_eq_some'.mp hf with ⟨a, ha, _⟩
      have hmem := List.mem_of_find?_eq_some ha
      have hak : a.1 = h := by simpa using List.find?_some ha
      exact ⟨(a.1, { a.2 with generation := c.currentGeneration }),
        List.mem_map.mpr ⟨a, hmem, by rw [if_pos hak]⟩, hak⟩

theorem query_preserves_stamped (c : LayoutCache) (h k : ℕ) (l : Layout)
    (hst : c.freshlyStamped h) : (c.query k l).2.freshlyStamped h := by
  by_cases hkh : k = h
  · subst hkh; exact query_stamps c k l
  obtain ⟨hall, e₀, he₀, hk₀⟩ := hst
  unfold query get
  rcases hf : c.findEntry k with _ | e
  · -- miss on another key: append of a `k`-entry
    have hnone : c.cache.find? (fun e => e.1 = k) = none := by
      unfold findEntry at hf
      exact Option.map_eq_none.mp hf
    simp only []
    unfold insert
    rw [hnone]
    simp only [Option.isSome_none, Bool.false_eq_true, if_false]
    refine ⟨?_, e₀, List.mem_append.mpr (.inl he₀), hk₀⟩
    intro e' he' hk'
    rcases List.mem_append.mp he' with hmem | hmem
    · exact hall e' hmem hk'
    · simp only [List.mem_singleton] at hmem
      subst hmem
      exact absurd hk' hkh
  · -- hit on another key: stamping map leaves `h`-entries unchanged
    simp only []
    constructor
    · intro e' he' hk'
      rcases List.mem_map.mp he' with ⟨a, ha, rfl⟩
      by_cases hak : a.1 = k
      · simp only [if_pos hak] at hk'
        exact absurd (hak ▸ hk') hkh
      · simp only [if_neg hak] at hk' ⊢
        exact hall _ ha hk'
    · have : e₀.1 ≠ k := by rw [hk₀]; exact fun hh => hkh hh.symm
      exact ⟨e₀, List.mem_map.mpr ⟨e₀, he₀, by rw [if_neg this]⟩, hk₀⟩

theorem runQueries_preserves_stamped (c : LayoutCache) (h : ℕ)
    (qs : List (ℕ × Layout)) (hst : c.freshlyStamped h) :
    (c.runQueries qs).freshlyStamped h := by
  induction qs generalizing c with
  | nil => exact hst
  | cons q qs ih => exact ih _ (query_preserves_stamped c h q.1 q.2 hst)

theorem runQueries_stamps (c : LayoutCache) (h : ℕ) (qs : List (ℕ × Layout))
    (hq : h ∈ qs.map Prod.fst) : (c.runQueries qs).freshlyStamped h := by
  induction qs generalizing c with
  | nil => cases hq
  | cons q qs ih =>
    by_cases hqh : q.1 = h
    · exact runQueries_preserves_stamped _ h qs (hqh ▸ query_stamps c q.1 q.2)
    · rcases List.mem_map.mp hq with ⟨a, ha, hfst⟩
      rcases List.mem_cons.mp ha with rfl | ha'
      · exact absurd hfst hqh
      · exact ih _ (List.mem_map.mpr ⟨a, ha', hfst⟩)

theorem query_gen_frozen (c : LayoutCache) (h k g : ℕ) (l : Layout) (hkh : k ≠ h)
    (hall : ∀ e ∈ c.cache, e.1 = h → e.2.generation = g)
    (hex : ∃ e ∈ c.cache, e.1 = h) :
    (∀ e ∈ (c.query k l).2.cache, e.1 = h → e.2.generation = g) ∧
    ∃ e ∈ (c.query k l).2.cache, e.1 = h := by
  obtain ⟨e₀, he₀, hk₀⟩ := hex
  unfold query get
  rcases hf : c.findEntry k with _ | e
  · have hnone : c.cache.find? (fun e => e.1 = k) = none := by
      unfold findEntry at hf
      exact Option.map_eq_none.mp hf
    simp only []
    unfold insert
    rw [hnone]
    simp only [Option.isSome_none, Bool.false_eq_true, if_false]
    refine ⟨?_, e₀, List.mem_append.mpr (.inl he₀), hk₀⟩
    intro e' he' hk'
    rcases List.mem_append.mp he' with hmem | hmem
    · exact hall e' hmem hk'
    · simp only [List.mem_singleton] at hmem
      subst hmem
      exact absurd hk' hkh
  · simp only []
    constructor
    · intro e' he' hk'
      rcases List.mem_map.mp he' with ⟨a, ha, rfl⟩
      by_cases hak : a.1 = k
      · simp only [if_pos hak] at hk'
        exact absurd (hak ▸ hk') hkh
      · simp only [if_neg hak] at hk' ⊢
        exact hall _ ha hk'
    · have : e₀.1 ≠ k := by rw [hk₀]; exact fun hh => hkh hh.symm
      exact ⟨e₀, List.mem_map.mpr ⟨e₀, he₀, by rw [if_neg this]⟩, hk₀⟩

theorem runQueries_gen_frozen (c : LayoutCache) (h g : ℕ) (qs : List (ℕ × Layout))
    (hq : h ∉ qs.map Prod.fst)
    (hall : ∀ e ∈ c.cache, e.1 = h → e.2.generation = g)
    (hex : ∃ e ∈ c.cache, e.1 = h) :
    (∀ e ∈ (c.runQueries qs).cache, e.1 = h → e.2.generation = g) ∧
    ∃ e ∈ (c.runQueries qs).cache, e.1 = h := by
  induction qs generalizing c with
  | nil => exact ⟨hall, hex⟩
  | cons q qs ih =>
    have hqh : q.1 ≠ h := fun hh => hq (by simp [hh])
    have step := query_gen_frozen c h q.1 g q.2 hqh hall hex
    exact ih _ (fun hh => hq (List.mem_cons_of_mem _ hh)) step.1 step.2

theorem flush_retains (c : LayoutCache) (h : ℕ) (hst : c.freshlyStamped h) :
    (∀ e ∈ (c.flush).cache, e.1 = h → e.2.generation = c.currentGeneration) ∧
    ∃ e ∈ (c.flush).cache, e.1 = h := by
  obtain ⟨hall, e₀, he₀, hk₀⟩ := hst
  constructor
  · intro e he hk
    exact hall e (List.mem_of_mem_filter he) hk
  · refine ⟨e₀, List.mem_filter.mpr ⟨he₀, ?_⟩, hk₀⟩
    simp [hall e₀ he₀ hk₀]

theorem flush_evicts (c : LayoutCache) (h g : ℕ)
    (hall : ∀ e ∈ c.cache, e.1 = h → e.2.generation = g)
    (hne : g ≠ c.currentGeneration) : (c.flush).findEntry h = none := by
  unfold findEntry
  rw [Option.map_eq_none', List.find?_eq_none]
  intro e he
  have hmem := List.mem_of_mem_filter he
  have hgen : e.2.generation = c.currentGeneration := by
    have := List.of_mem_filter he
    simpa using this
  intro hk
  simp only [decide_eq_true_eq] at hk
  exact hne ((hall e hmem hk) ▸ hgen)

theorem findEntry_ne_none_of_exists (c : LayoutCache) (h : ℕ)
    (hex : ∃ e ∈ c.cache, e.1 = h) : c.findEntry h ≠ none := by
  obtain ⟨e₀, he₀, hk₀⟩ := hex
  unfold findEntry
  intro hcon
  rcases Option.map_eq_none.mp hcon with hfind
  exact absurd (by simpa using hk₀) (by simpa using List.find?_eq_none.mp hfind e₀ he₀)

theorem generation_succ_mod_ne (g : ℕ) : (g + 1) % 2 ^ 32 ≠ g := by
  have h32 : (2 : ℕ) ^ 32 = 4294967296 := by norm_num
  rw [h32]
  omega

end LayoutCache

/-- Claim C5: a cached layout requested (via `Fonts::layout`) in frame `N`
and not requested in frame `N+1` survives the generation sweep
(`LayoutCache::flush`) at the start of frame `N+1` but is evicted by the
sweep at the start of frame `N+2`; a layout requested in every frame is
never evicted by the sweep.  Frames are modelled as the `LayoutCache`
operation sequences `Fonts::layout` performs (`flush` at `begin_frame`,
then hash queries). -/
theorem layout_cache_generation_eviction :
    (∀ (c : LayoutCache) (h : ℕ) (qsN qsN1 : List (ℕ × Layout)),
      h ∈ qsN.map Prod.fst →
      h ∉ qsN1.map Prod.fst →
      ((c.runQueries qsN).flush.findEntry h ≠ none ∧
       ((c.runQueries qsN).flush.runQueries qsN1).flush.findEntry h = none)) ∧
    (∀ (c : LayoutCache) (h : ℕ) (frames : List (List (ℕ × Layout))),
      frames ≠ [] →
      (∀ fr ∈ frames, h ∈ fr.map Prod.fst) →
      (frames.foldl (fun c fr => (c.flush).runQueries fr) c).flush.findEntry h
        ≠ none) := by
  constructor
  · intro c h qsN qsN1 hN hN1
    have hst := LayoutCache.runQueries_stamps c h qsN hN
    have hret := LayoutCache.flush_retains _ h hst
    refine ⟨LayoutCache.findEntry_ne_none_of_exists _ h hret.2, ?_⟩
    have hfrozen := LayoutCache.runQueries_gen_frozen _ h
      (c.runQueries qsN).currentGeneration qsN1 hN1 hret.1 hret.2
    apply LayoutCache.flush_evicts _ h (c.runQueries qsN).currentGeneration hfrozen.1
    have hq1 : (((c.runQueries qsN).flush).runQueries qsN1).currentGeneration
        = ((c.runQueries qsN).currentGeneration + 1) % 2 ^ 32 := by
      rw [LayoutCache.runQueries_currentGeneration]
      rfl
    rw [hq1]
    exact fun hh => LayoutCache.generation_succ_mod_ne _ hh.symm
  · intro c h frames hne hall
    suffices hs : ∀ (frames : List (List (ℕ × Layout))) (c : LayoutCache),
        (∀ fr ∈ frames, h ∈ fr.map Prod.fst) →
        (c.freshlyStamped h →
          (frames.foldl (fun c fr => (c.flush).runQueries fr) c).freshlyStamped h) ∧
        (frames ≠ [] →
          (frames.foldl (fun c fr => (c.flush).runQueries fr) c).freshlyStamped h) by
      have hst := (hs frames c hall).2 hne
      exact LayoutCache.findEntry_ne_none_of_exists _ h
        (LayoutCache.flush_retains _ h hst).2
    intro frames
    induction frames with
    | nil => exact fun c _ => ⟨fun hst => hst, fun hcon => absurd rfl hcon⟩
    | cons fr rest ih =>
      intro c hall'
      have hfr : h ∈ fr.map Prod.fst := hall' fr (List.mem_cons_self fr rest)
      have hstep : ((c.flush).runQueries fr).freshlyStamped h :=
        LayoutCache.runQueries_stamps _ h fr hfr
      have hrest := ih ((c.flush).runQueries fr)
        (fun f hf => hall' f (List.mem_cons_of_mem fr hf))
      exact ⟨fun _ => hrest.1 hstep, fun _ => hrest.1 hstep⟩

theorem layout_cache_generation_eviction_witness :
    (5 ∈ ([(5, Layout.mk 0 [] 0 0)].map Prod.fst) ∧
     5 ∉ ([(7, Layout.mk 0 [] 0 0)].map Prod.fst) ∧
     ((LayoutCache.init.runQueries [(5, Layout.mk 0 [] 0 0)]).flush.findEntry 5 ≠ none ∧
      ((LayoutCache.init.runQueries [(5, Layout.mk 0 [] 0 0)]).flush.runQueries
          [(7, Layout.mk 0 [] 0 0)]).flush.findEntry 5 = none)) ∧
    ([[(5, Layout.mk 0 [] 0 0)], [(5, Layout.mk 0 [] 0 0)]] ≠
        ([] : List (List (ℕ × Layout))) ∧
     (([[(5, Layout.mk 0 [] 0 0)], [(5, Layout.mk 0 [] 0 0)]].foldl
          (fun c fr => (c.flush).runQueries fr) LayoutCache.init).flush.findEntry 5
        ≠ none)) :=
  ⟨⟨by decide, by decide,
    layout_cache_generation_eviction.1 LayoutCache.init 5
      [(5, Layout.mk 0 [] 0 0)] [(7, Layout.mk 0 [] 0 0)] (by decide) (by decide)⟩,
   ⟨by decide,
    layout_cache_generation_eviction.2 LayoutCache.init 5
      [[(5, Layout.mk 0 [] 0 0)], [(5, Layout.mk 0 [] 0 0)]] (by decide)
      (by
        intro fr hfr
        simp only [List.mem_cons, List.not_mem_nil, or_false] at hfr
        rcases hfr with rfl | rfl <;> decide)⟩⟩

/-! ## C4 — atlas overflow recovery -/

namespace FontAtlas

theorem allocWrap_overflowed (a : FontAtlas) (w : ℕ) :
    (a.allocWrap w).overflowed = a.overflowed := by
  unfold allocWrap; split <;> rfl

theorem allocWrap_imageWidth (a : FontAtlas) (w : ℕ) :
    (a.allocWrap w).imageWidth = a.imageWidth := by
  unfold allocWrap; split <;> rfl

theorem allocWrap_imageHeight (a : FontAtlas) (w : ℕ) :
    (a.allocWrap w).imageHeight = a.imageHeight := by
  unfold allocWrap; split <;> rfl

theorem allocWrap_maxTextureSide (a : FontAtlas) (w : ℕ) :
    (a.allocWrap w).maxTextureSide = a.maxTextureSide := by
  unfold allocWrap; split <;> rfl

theorem allocGrow_overflowed_of (a : FontAtlas) (h : a.overflowed = true) :
    (a.allocGrow).overflowed = true := by
  unfold allocGrow; split_ifs <;> first | rfl | exact h

theorem allocGrow_not_overflow (a : FontAtlas)
    (hb : ¬ a.cursorY + a.currentRowHeight > a.maxTextureSide) :
    (a.allocGrow).overflowed = a.overflowed ∧
    (a.allocGrow).cursorX = a.cursorX ∧
    (a.allocGrow).cursorY = a.cursorY ∧
    (a.allocGrow).currentRowHeight = a.currentRowHeight ∧
    (a.allocGrow).imageWidth = a.imageWidth ∧
    (a.allocGrow).maxTextureSide = a.maxTextureSide := by
  unfold allocGrow
  rw [if_neg hb]
  split <;> exact ⟨rfl, rfl, rfl, rfl, rfl, rfl⟩

theorem allocate_overflowed_mono (a : FontAtlas) (w h : ℕ)
    (hov : a.overflowed = true) : ((a.allocate w h).2).overflowed = true := by
  unfold allocate
  show ((a.allocWrap w).rowMaxed h).allocGrow.overflowed = true
  apply allocGrow_overflowed_of
  show (a.allocWrap w).overflowed = true
  rw [allocWrap_overflowed]
  exact hov

theorem allocRun_overflowed_mono (a : FontAtlas) (sizes : List (ℕ × ℕ))
    (hov : a.overflowed = true) : ((a.allocRun sizes).2).overflowed = true := by
  induction sizes generalizing a with
  | nil => exact hov
  | cons s rest ih =>
    show ((((a.allocate s.1 s.2).2).allocRun rest).2).overflowed = true
    exact ih _ (allocate_overflowed_mono a s.1 s.2 hov)

theorem capacity_of_overflowed (a : FontAtlas) (hov : a.overflowed = true) :
    a.capacity = 1 := by
  unfold capacity; rw [if_pos hov]

/-- When an `allocate` call flips the overflow flag, the overflow branch
was taken: the returned region sits at the interior row
`image.height() / 3`, and the bitmap dimensions are unchanged. -/
theorem allocate_overflow_event (a : FontAtlas) (w h : ℕ)
    (hpre : a.overflowed = false)
    (hov : ((a.allocate w h).2).overflowed = true) :
    (a.allocate w h).1 = ⟨0, a.imageHeight / 3, w, h⟩ ∧
    ((a.allocate w h).2).imageWidth = a.imageWidth ∧
    ((a.allocate w h).2).imageHeight = a.imageHeight := by
  have ha2ov : ((a.allocWrap w).rowMaxed h).overflowed = false := by
    show (a.allocWrap w).overflowed = false
    rw [allocWrap_overflowed]; exact hpre
  by_cases hb : ((a.allocWrap w).rowMaxed h).cursorY
      + ((a.allocWrap w).rowMaxed h).currentRowHeight
      > ((a.allocWrap w).rowMaxed h).maxTextureSide
  · have hg : ((a.allocWrap w).rowMaxed h).allocGrow
        = { (a.allocWrap w).rowMaxed h with
            cursorX := 0,
            cursorY := ((a.allocWrap w).rowMaxed h).imageHeight / 3,
            overflowed := true } := by
      unfold allocGrow
      rw [if_pos hb]
    unfold allocate
    rw [hg]
    refine ⟨?_, ?_, ?_⟩
    · show AtlasRegion.mk 0 (((a.allocWrap w).rowMaxed h).imageHeight / 3) w h
        = AtlasRegion.mk 0 (a.imageHeight / 3) w h
      rw [show ((a.allocWrap w).rowMaxed h).imageHeight = a.imageHeight from
        allocWrap_imageHeight a w]
    · exact allocWrap_imageWidth a w
    · exact allocWrap_imageHeight a w
  · exfalso
    have := (allocGrow_not_overflow _ hb).1
    unfold allocate at hov
    have hfin : ((a.allocWrap w).rowMaxed h).allocGrow.overflowed = true := hov
    rw [this, ha2ov] at hfin
    exact Bool.false_ne_true hfin

/-- `FontAtlas::clear` on any atlas with positive dimensions: the cursor
restarts behind the re-reserved 1×1 white pixel at the origin, the
overflow flag is reset and the bitmap dimensions are kept. -/
theorem clear_spec (a : FontAtlas) (hW : 1 ≤ a.imageWidth)
    (hM : 1 ≤ a.maxTextureSide) (hH : 1 ≤ a.imageHeight) :
    a.clear = { a with cursorX := 2, cursorY := 0, currentRowHeight := 1, dirty := true, overflowed := false } ∧
    (({ a with cursorX := 0, cursorY := 0, currentRowHeight := 0, dirty := false, overflowed := false } : FontAtlas).allocate 1 1).1
      = ⟨0, 0, 1, 1⟩ := by
  have hwrap : ({ a with cursorX := 0, cursorY := 0, currentRowHeight := 0, dirty := false, overflowed := false } : FontAtlas).allocWrap 1
      = { a with cursorX := 0, cursorY := 0, currentRowHeight := 0, dirty := false, overflowed := false } := by
    unfold allocWrap
    rw [if_neg]
    show ¬ (0 : ℕ) + 1 > a.imageWidth
    omega
  have hgrow : (({ a with cursorX := 0, cursorY := 0, currentRowHeight := 0, dirty := false, overflowed := false } : FontAtlas).rowMaxed 1).allocGrow
      = ({ a with cursorX := 0, cursorY := 0, currentRowHeight := 1, dirty := false, overflowed := false } : FontAtlas) := by
    unfold allocGrow
    rw [if_neg, if_neg]
    · rfl
    · show ¬ (0 : ℕ) + max 0 1 > a.imageHeight
      omega
    · show ¬ (0 : ℕ) + max 0 1 > a.maxTextureSide
      omega
  constructor
  · show (({ a with cursorX := 0, cursorY := 0, currentRowHeight := 0, dirty := false, overflowed := false } : FontAtlas).allocate 1 1).2 = _
    unfold allocate
    rw [hwrap, hgrow]
    rfl
  · show (({ a with cursorX := 0, cursorY := 0, currentRowHeight := 0, dirty := false, overflowed := false } : FontAtlas).allocate 1 1).1 = _
    unfold allocate
    rw [hwrap, hgrow]

end FontAtlas

theorem Fonts.beginFrame_of_overflowed (f : Fonts)
    (hov : f.atlas.overflowed = true) :
    f.beginFrame = ⟨f.atlas.clear, ⟨[], [], 0, []⟩,
      ⟨(f.layoutCache.currentGeneration + 1) % 2 ^ 32, []⟩⟩ := by
  unfold Fonts.beginFrame
  rw [if_pos]
  · rfl
  · rw [FontAtlas.capacity_of_overflowed f.atlas hov]
    norm_num

/-- Claim C4: when a `FontAtlas::allocate` call overflows the atlas, the
call still succeeds — returning a region of the requested size whose
cursor was reset to the interior row `image.height() / 3` — the atlas is
marked overflowed, `capacity()` reports `1.0` for all following
allocations of the frame, and the `Fonts::begin_frame` starting the next
frame performs the full clear + rebuild: the atlas is cleared (bitmap
dimensions kept, 1×1 white pixel re-reserved at the origin, overflow flag
reset), and the glyph cache, the interned style ids and the layout cache
are cleared together with it. -/
theorem atlas_overflow_recovery (a : FontAtlas) (w h : ℕ)
    (hpre : a.overflowed = false)
    (hov : ((a.allocate w h).2).overflowed = true) :
    (a.allocate w h).1 = ⟨0, a.imageHeight / 3, w, h⟩ ∧
    (a.allocate w h).2.capacity = 1 ∧
    (∀ sizes : List (ℕ × ℕ),
      ((((a.allocate w h).2).allocRun sizes).2).capacity = 1) ∧
    (∀ f : Fonts, f.atlas = (a.allocate w h).2 →
      f.beginFrame = ⟨f.atlas.clear, ⟨[], [], 0, []⟩,
        ⟨(f.layoutCache.currentGeneration + 1) % 2 ^ 32, []⟩⟩) ∧
    (∀ b : FontAtlas, 1 ≤ b.imageWidth → 1 ≤ b.maxTextureSide →
      1 ≤ b.imageHeight →
      (b.clear = { b with cursorX := 2, cursorY := 0, currentRowHeight := 1, dirty := true, overflowed := false } ∧
       (({ b with cursorX := 0, cursorY := 0, currentRowHeight := 0, dirty := false, overflowed := false } : FontAtlas).allocate 1 1).1
         = ⟨0, 0, 1, 1⟩)) := by
  refine ⟨(FontAtlas.allocate_overflow_event a w h hpre hov).1,
    FontAtlas.capacity_of_overflowed _ hov,
    fun sizes => FontAtlas.capacity_of_overflowed _
      (FontAtlas.allocRun_overflowed_mono _ sizes hov),
    fun f hf => Fonts.beginFrame_of_overflowed f (by rw [hf]; exact hov),
    fun b hW hM hH => FontAtlas.clear_spec b hW hM hH⟩

theorem atlas_overflow_recovery_witness :
    ((((FontAtlas.new 6).allocate 3 3).2).overflowed = false ∧
     ((((FontAtlas.new 6).allocate 3 3).2).allocate 3 3).2.overflowed = true) ∧
    (((((FontAtlas.new 6).allocate 3 3).2).allocate 3 3).1
        = ⟨0, 256 / 3, 3, 3⟩ ∧
     ((((FontAtlas.new 6).allocate 3 3).2).allocate 3 3).2.capacity = 1 ∧
     (∀ sizes : List (ℕ × ℕ),
       (((((FontAtlas.new 6).allocate 3 3).2).allocate 3 3).2.allocRun sizes).2.capacity
         = 1) ∧
     (∀ f : Fonts, f.atlas = ((((FontAtlas.new 6).allocate 3 3).2).allocate 3 3).2 →
       f.beginFrame = ⟨f.atlas.clear, ⟨[], [], 0, []⟩,
         ⟨(f.layoutCache.currentGeneration + 1) % 2 ^ 32, []⟩⟩) ∧
     (∀ b : FontAtlas, 1 ≤ b.imageWidth → 1 ≤ b.maxTextureSide →
       1 ≤ b.imageHeight →
       (b.clear = { b with cursorX := 2, cursorY := 0, currentRowHeight := 1, dirty := true, overflowed := false } ∧
        (({ b with cursorX := 0, cursorY := 0, currentRowHeight := 0, dirty := false, overflowed := false } : FontAtlas).allocate 1 1).1
          = ⟨0, 0, 1, 1⟩))) :=
  ⟨⟨by decide, by decide⟩,
   by
     have := atlas_overflow_recovery (((FontAtlas.new 6).allocate 3 3).2) 3 3
       (by decide) (by decide)
     rwa [show (((FontAtlas.new 6).allocate 3 3).2).imageHeight = 256 from rfl] at this⟩

/-! ## C3 — atlas region disjointness -/

/-- Claim C3 (counterexample): keeping the total requested area under
`max_texture_side²` does *not* prevent overlap, because row packing wastes
area.  With `max_texture_side = 6`, three 3×3 allocations (total area
27 < 36) overflow the atlas — row packing can only fit one 3-row — and the
overflow recovery resets the cursor to `image.height() / 3 = 85` twice, so
the second and third returned regions coincide. -/
theorem atlas_area_under_capacity_can_overlap :
    (((FontAtlas.new 6).allocRun [(3, 3), (3, 3), (3, 3)]).1
      = [⟨2, 0, 3, 3⟩, ⟨0, 85, 3, 3⟩, ⟨0, 85, 3, 3⟩]) ∧
    AtlasRegion.intersects ⟨0, 85, 3, 3⟩ ⟨0, 85, 3, 3⟩ ∧
    3 * 3 + 3 * 3 + 3 * 3 < 6 * 6 := by
  refine ⟨by decide, by decide, by decide⟩

namespace FontAtlas

theorem allocWrap_cases (a : FontAtlas) (w : ℕ) :
    (a.allocWrap w = a ∧ ¬ a.cursorX + w > a.imageWidth) ∨
    (a.allocWrap w = { a with cursorX := 0, cursorY := a.cursorY + a.currentRowHeight + padding, currentRowHeight := 0 } ∧ a.cursorX + w > a.imageWidth) := by
  unfold allocWrap
  by_cases hc : a.cursorX + w > a.imageWidth
  · exact .inr ⟨if_pos hc, hc⟩
  · exact .inl ⟨if_neg hc, hc⟩

theorem allocate_overflow_branch (a : FontAtlas) (w h : ℕ)
    (hb : ((a.allocWrap w).rowMaxed h).cursorY
        + ((a.allocWrap w).rowMaxed h).currentRowHeight
        > ((a.allocWrap w).rowMaxed h).maxTextureSide) :
    ((a.allocate w h).2).overflowed = true := by
  unfold allocate
  show (((a.allocWrap w).rowMaxed h).allocGrow).overflowed = true
  unfold allocGrow
  rw [if_pos hb]

theorem allocate_shape (a : FontAtlas) (w h : ℕ)
    (hnb : ¬ ((a.allocWrap w).rowMaxed h).cursorY
        + ((a.allocWrap w).rowMaxed h).currentRowHeight
        > ((a.allocWrap w).rowMaxed h).maxTextureSide) :
    (a.allocate w h).1 = ⟨((a.allocWrap w).rowMaxed h).cursorX,
        ((a.allocWrap w).rowMaxed h).cursorY, w, h⟩ ∧
    ((a.allocate w h).2).cursorX = ((a.allocWrap w).rowMaxed h).cursorX + w + 1 ∧
    ((a.allocate w h).2).cursorY = ((a.allocWrap w).rowMaxed h).cursorY ∧
    ((a.allocate w h).2).currentRowHeight
      = ((a.allocWrap w).rowMaxed h).currentRowHeight := by
  obtain ⟨-, hx, hy, hrh, -, -⟩ := allocGrow_not_overflow _ hnb
  unfold allocate
  refine ⟨?_, ?_, ?_, ?_⟩
  · rw [hx, hy]
  · show (((a.allocWrap w).rowMaxed h).allocGrow).cursorX + w + padding = _
    rw [hx]
    rfl
  · exact hy
  · exact hrh

theorem rowMaxed_currentRowHeight (a : FontAtlas) (h : ℕ) :
    (a.rowMaxed h).currentRowHeight = max a.currentRowHeight h := rfl

/-- Geometry of one non-overflowing `allocate` call: the returned region
lies behind the new write frontier, and every region behind the old
frontier stays behind the new frontier and is disjoint from the returned
region. -/
theorem allocate_geometry (a : FontAtlas) (w h : ℕ)
    (hnb : ¬ ((a.allocWrap w).rowMaxed h).cursorY
        + ((a.allocWrap w).rowMaxed h).currentRowHeight
        > ((a.allocWrap w).rowMaxed h).maxTextureSide) :
    ((a.allocate w h).2).behindFrontier (a.allocate w h).1 ∧
    ∀ r, a.behindFrontier r →
      ((a.allocate w h).2).behindFrontier r ∧ ¬ r.intersects (a.allocate w h).1 := by
  obtain ⟨hreg, hx, hy, hrh⟩ := allocate_shape a w h hnb
  rcases allocWrap_cases a w with ⟨heq, -⟩ | ⟨heq, -⟩ <;>
    rw [heq] at hreg hx hy hrh <;>
    simp only [rowMaxed, padding] at hreg hx hy hrh <;>
    constructor
  · -- no wrap: the new region sits in the open row left of the new cursor
    rw [hreg]
    unfold behindFrontier
    right
    refine ⟨hy.symm, ?_, ?_⟩ <;> simp only [hx, hy, hrh] <;> omega
  · -- no wrap: old regions stay behind and are disjoint from the new one
    intro r hr
    unfold behindFrontier at hr ⊢
    rw [hreg]
    unfold AtlasRegion.intersects
    simp only [hx, hy, hrh] at *
    omega
  · -- wrap: the new region opens the next row
    rw [hreg]
    unfold behindFrontier
    right
    refine ⟨hy.symm, ?_, ?_⟩ <;> simp only [hx, hy, hrh] <;> omega
  · -- wrap: every old region is entirely above the new row
    intro r hr
    unfold behindFrontier at hr ⊢
    rw [hreg]
    unfold AtlasRegion.intersects
    simp only [hx, hy, hrh] at *
    omega

theorem allocRun_disjoint_aux (sizes : List (ℕ × ℕ)) :
    ∀ (a : FontAtlas) (rs : List AtlasRegion),
      ((a.allocRun sizes).2).overflowed = false →
      (∀ r ∈ rs, a.behindFrontier r) →
      rs.Pairwise (fun r1 r2 => ¬ r1.intersects r2) →
      (rs ++ (a.allocRun sizes).1).Pairwise (fun r1 r2 => ¬ r1.intersects r2) := by
  induction sizes with
  | nil => intro a rs _ _ hpw; simpa [allocRun] using hpw
  | cons s rest ih =>
    intro a rs hno hfront hpw
    have hnb : ¬ ((a.allocWrap s.1).rowMaxed s.2).cursorY
        + ((a.allocWrap s.1).rowMaxed s.2).currentRowHeight
        > ((a.allocWrap s.1).rowMaxed s.2).maxTextureSide := by
      intro hb
      have h1 := allocate_overflow_branch a s.1 s.2 hb
      have h2 := allocRun_overflowed_mono ((a.allocate s.1 s.2).2) rest h1
      rw [show ((a.allocRun (s :: rest)).2) = (((a.allocate s.1 s.2).2).allocRun rest).2
        from rfl] at hno
      rw [h2] at hno
      cases hno
    obtain ⟨hnewfr, hold⟩ := allocate_geometry a s.1 s.2 hnb
    have step := ih ((a.allocate s.1 s.2).2) (rs ++ [(a.allocate s.1 s.2).1])
      (by
        rw [show ((a.allocRun (s :: rest)).2)
            = (((a.allocate s.1 s.2).2).allocRun rest).2 from rfl] at hno
        exact hno)
      (by
        intro r hr
        rcases List.mem_append.mp hr with hmem | hmem
        · exact (hold r (hfront r hmem)).1
        · simp only [List.mem_singleton] at hmem
          subst hmem
          exact hnewfr)
      (by
        rw [List.pairwise_append]
        refine ⟨hpw, List.pairwise_singleton _ _, ?_⟩
        intro r hr r' hr'
        simp only [List.mem_singleton] at hr'
        subst hr'
        exact (hold r (hfront r hr)).2)
    rw [show ((a.allocRun (s :: rest)).1)
        = (a.allocate s.1 s.2).1 :: (((a.allocate s.1 s.2).2).allocRun rest).1 from rfl]
    simpa [List.append_assoc] using step

end FontAtlas

/-- Claim C3 (amended): starting from a fresh atlas, for any sequence of
`allocate` calls during which the atlas never overflows (the `overflowed`
flag stays unset — the condition the counterexample shows is necessary in
place of the claimed total-area bound), the returned regions are pairwise
disjoint. -/
theorem atlas_no_overflow_disjoint (maxSide : ℕ) (sizes : List (ℕ × ℕ))
    (hno : (((FontAtlas.new maxSide).allocRun sizes).2).overflowed = false) :
    (((FontAtlas.new maxSide).allocRun sizes).1).Pairwise
      (fun r1 r2 => ¬ r1.intersects r2) := by
  have := FontAtlas.allocRun_disjoint_aux sizes (FontAtlas.new maxSide) [] hno
    (by intro r hr; cases hr) List.Pairwise.nil
  simpa using this

theorem atlas_no_overflow_disjoint_witness :
    (((FontAtlas.new 100).allocRun [(3, 3), (4, 2), (95, 1)]).2).overflowed = false ∧
    (((FontAtlas.new 100).allocRun [(3, 3), (4, 2), (95, 1)]).1).Pairwise
      (fun r1 r2 => ¬ r1.intersects r2) :=
  ⟨by decide, atlas_no_overflow_disjoint 100 [(3, 3), (4, 2), (95, 1)] (by decide)⟩

/-! ## C10 — structural validity of emitted meshes -/

namespace Mesh

theorem addRect_vertices_length (m : Mesh) (r uv : Rect) (c : Srgba) (li : ℕ) :
    (m.addRect r uv c li).vertices.length = m.vertices.length + 4 := by
  simp [addRect]

theorem addQuad_vertices_length (m : Mesh) (q uv : Quad) (c : Srgba) (li : ℕ) :
    (m.addQuad q uv c li).vertices.length = m.vertices.length + 4 := by
  simp [addQuad]

theorem addRect_quadish (m : Mesh) (r uv : Rect) (c : Srgba) (li : ℕ)
    (hq : m.Quadish) : (m.addRect r uv c li).Quadish := by
  obtain ⟨h4, hlen, hbound⟩ := hq
  refine ⟨?_, ?_, ?_⟩
  · rw [addRect_vertices_length]; omega
  · rw [addRect_vertices_length]
    show (m.indices ++ _).length = _
    rw [List.length_append, hlen]
    have : (4 ∣ m.vertices.length) := Nat.dvd_of_mod_eq_zero h4
    simp only [List.length_cons, List.length_nil]
    omega
  · intro i hi
    rw [addRect_vertices_length]
    show i < m.vertices.length + 4
    rcases List.mem_append.mp hi with hmem | hmem
    · exact lt_of_lt_of_le (hbound i hmem) (by omega)
    · simp only [List.mem_cons, List.not_mem_nil, or_false] at hmem
      rcases hmem with rfl | rfl | rfl | rfl | rfl | rfl <;> omega

theorem addQuad_quadish (m : Mesh) (q uv : Quad) (c : Srgba) (li : ℕ)
    (hq : m.Quadish) : (m.addQuad q uv c li).Quadish := by
  obtain ⟨h4, hlen, hbound⟩ := hq
  refine ⟨?_, ?_, ?_⟩
  · rw [addQuad_vertices_length]; omega
  · rw [addQuad_vertices_length]
    show (m.indices ++ _).length = _
    rw [List.length_append, hlen]
    have : (4 ∣ m.vertices.length) := Nat.dvd_of_mod_eq_zero h4
    simp only [List.length_cons, List.length_nil]
    omega
  · intro i hi
    rw [addQuad_vertices_length]
    show i < m.vertices.length + 4
    rcases List.mem_append.mp hi with hmem | hmem
    · exact lt_of_lt_of_le (hbound i hmem) (by omega)
    · simp only [List.mem_cons, List.not_mem_nil, or_false] at hmem
      rcases hmem with rfl | rfl | rfl | rfl | rfl | rfl <;> omega

theorem empty_quadish : (Mesh.empty).Quadish :=
  ⟨rfl, rfl, fun i hi => absurd hi (List.not_mem_nil i)⟩

theorem quadish_textureId (m : Mesh) (t : TextureId) (hq : m.Quadish) :
    ({ m with textureId := t } : Mesh).Quadish := hq

theorem wf_of_quadish_not_isEmpty (m : Mesh) (hq : m.Quadish)
    (hne : m.isEmpty = false) : m.Wf := by
  obtain ⟨h4, hlen, hbound⟩ := hq
  refine ⟨?_, h4, hlen, hbound⟩
  by_contra hcon
  have hv : m.vertices.length = 0 := by omega
  have hi : m.indices.length = 0 := by rw [hlen, hv]
  unfold isEmpty at hne
  rw [List.length_eq_zero.mp hv, List.length_eq_zero.mp hi] at hne
  simp at hne

end Mesh

namespace Tessellator

theorem convertRectPrimitive_quadish (p : RectPrimitive) (m : Mesh)
    (hq : m.Quadish) : (convertRectPrimitive p m).Quadish := by
  unfold convertRectPrimitive
  rcases p.texture with _ | t <;>
    exact Mesh.quadish_textureId _ _ (Mesh.addRect_quadish m _ _ _ _ hq)

theorem convertQuadPrimitive_quadish (p : QuadPrimitive) (m : Mesh)
    (hq : m.Quadish) : (convertQuadPrimitive p m).Quadish := by
  unfold convertQuadPrimitive
  rcases p.texture with _ | t <;>
    exact Mesh.quadish_textureId _ _ (Mesh.addQuad_quadish m _ _ _ _ hq)

theorem glyph_fold_quadish (gs : List RasterizedGlyph) (pos : Pt)
    (atlasSize : FontAtlasSize) (m : Mesh) (hq : m.Quadish) :
    (gs.foldl (fun out glyph =>
        out.addRect (glyph.rect.translate ⟨pos.x, pos.y⟩)
          (glyph.uv.normalize atlasSize) glyph.color 0) m).Quadish := by
  induction gs generalizing m with
  | nil => exact hq
  | cons g gs ih => exact ih _ (Mesh.addRect_quadish m _ _ _ _ hq)

theorem row_fold_quadish (rows : List LayoutRow) (pos : Pt)
    (atlasSize : FontAtlasSize) (m : Mesh) (hq : m.Quadish) :
    (rows.foldl (fun out row =>
        row.glyphs.foldl (fun out glyph =>
          out.addRect (glyph.rect.translate ⟨pos.x, pos.y⟩)
            (glyph.uv.normalize atlasSize) glyph.color 0) out) m).Quadish := by
  induction rows generalizing m with
  | nil => exact hq
  | cons row rows ih => exact ih _ (glyph_fold_quadish row.glyphs pos atlasSize m hq)

theorem convertTextPrimitive_quadish (p : TextPrimitive)
    (atlasSize : FontAtlasSize) (m : Mesh) (hq : m.Quadish) :
    (convertTextPrimitive p atlasSize m).Quadish := by
  unfold convertTextPrimitive
  split
  · exact hq
  · exact row_fold_quadish p.layout.rows p.pos atlasSize m hq

theorem convertPrimitive_quadish (p : DrawPrimitive) (atlasSize : FontAtlasSize)
    (m : Mesh) (hq : m.Quadish) : (convertPrimitive p atlasSize m).Quadish := by
  rcases p with p | p | p
  · exact convertRectPrimitive_quadish p m hq
  · exact convertQuadPrimitive_quadish p m hq
  · exact convertTextPrimitive_quadish p atlasSize m hq

theorem mem_of_getLast?_eq_some {α : Type _} {l : List α} {a : α}
    (h : l.getLast? = some a) : a ∈ l := by
  have hx : a ∈ l.getLast? := by rw [h]; rfl
  obtain ⟨hne, rfl⟩ := List.mem_getLast?_eq_getLast hx
  exact List.getLast_mem hne

theorem convertIntoLast_wf (atlasSize : FontAtlasSize)
    (out : List ClippedMesh) (cp : ClippedPrimitive)
    (hdrop : ∀ cm ∈ out.dropLast, cm.mesh.Wf)
    (hlast : ∀ last, out.getLast? = some last → last.mesh.Quadish) :
    ∀ cm ∈ convertIntoLast atlasSize out cp, cm.mesh.Wf := by
  unfold convertIntoLast
  split
  · next hnone =>
    intro cm hcm
    rw [List.getLast?_eq_none_iff.mp hnone] at hcm
    cases hcm
  · next last hsome =>
    split
    · exact fun cm hcm => hdrop cm hcm
    · next hne =>
      intro cm hcm
      rcases List.mem_append.mp hcm with hmem | hmem
      · exact hdrop cm hmem
      · simp only [List.mem_singleton] at hmem
        subst hmem
        exact Mesh.wf_of_quadish_not_isEmpty _
          (convertPrimitive_quadish cp.primitive atlasSize last.mesh (hlast last hsome))
          (Bool.not_eq_true _ ▸ hne)

theorem convertClippedPrimitive_wf (atlasSize : FontAtlasSize)
    (out : List ClippedMesh) (cp : ClippedPrimitive)
    (hwf : ∀ cm ∈ out, cm.mesh.Wf) :
    ∀ cm ∈ convertClippedPrimitive atlasSize out cp, cm.mesh.Wf := by
  unfold convertClippedPrimitive
  split
  · exact hwf
  split
  · -- a fresh (empty, hence quadish) batch was appended
    apply convertIntoLast_wf
    · rw [List.dropLast_concat]
      exact hwf
    · intro last hlast
      rw [List.getLast?_concat] at hlast
      cases hlast
      exact Mesh.empty_quadish
  · -- appending to the existing last batch, which is well-formed
    apply convertIntoLast_wf
    · exact fun cm hcm => hwf cm (List.dropLast_subset _ hcm)
    · intro last hlast
      have hm := mem_of_getLast?_eq_some hlast
      exact ⟨(hwf last hm).2.1, (hwf last hm).2.2.1, (hwf last hm).2.2.2⟩

theorem convertClippedPrimitives_wf_aux (atlasSize : FontAtlasSize)
    (prims : List ClippedPrimitive) :
    ∀ out : List ClippedMesh, (∀ cm ∈ out, cm.mesh.Wf) →
      ∀ cm ∈ prims.foldl (convertClippedPrimitive atlasSize) out, cm.mesh.Wf := by
  induction prims with
  | nil => exact fun out h => h
  | cons p rest ih =>
    intro out hout
    exact ih _ (convertClippedPrimitive_wf atlasSize out p hout)

end Tessellator

/-- Claim C10: every `ClippedMesh` returned by
`Tessellator::convert_clipped_primitives` is structurally valid: its
vertex count is a positive multiple of 4, its index count is `6 *
(vertices / 4)`, and every index is in bounds — no empty mesh is ever
emitted. -/
theorem tessellator_meshes_structurally_valid (prims : List ClippedPrimitive)
    (atlasSize : FontAtlasSize) (cm : ClippedMesh)
    (hmem : cm ∈ Tessellator.convertClippedPrimitives prims atlasSize) :
    0 < cm.mesh.vertices.length ∧
    cm.mesh.vertices.length % 4 = 0 ∧
    cm.mesh.indices.length = 6 * (cm.mesh.vertices.length / 4) ∧
    ∀ i ∈ cm.mesh.indices, i < cm.mesh.vertices.length :=
  Tessellator.convertClippedPrimitives_wf_aux atlasSize prims []
    (fun _ h => absurd h (List.not_mem_nil _)) cm hmem

theorem tessellator_meshes_structurally_valid_witness :
    (ClippedMesh.mk ⟨⟨0, 0⟩, ⟨1, 1⟩⟩
        ⟨[⟨⟨0, 0⟩, ⟨0, 0⟩, ⟨255, 255, 255, 255⟩, 0⟩,
          ⟨⟨1, 0⟩, ⟨0, 0⟩, ⟨255, 255, 255, 255⟩, 0⟩,
          ⟨⟨1, 1⟩, ⟨0, 0⟩, ⟨255, 255, 255, 255⟩, 0⟩,
          ⟨⟨0, 1⟩, ⟨0, 0⟩, ⟨255, 255, 255, 255⟩, 0⟩],
         [0, 1, 3, 1, 2, 3], 0⟩
      ∈ Tessellator.convertClippedPrimitives
        [⟨⟨⟨0, 0⟩, ⟨1, 1⟩⟩,
          .rect ⟨⟨⟨0, 0⟩, ⟨1, 1⟩⟩, ⟨255, 255, 255, 255⟩, none⟩⟩] ⟨16, 16⟩) ∧
    (0 < (List.length
        [Vertex.mk ⟨0, 0⟩ ⟨0, 0⟩ ⟨255, 255, 255, 255⟩ 0,
         ⟨⟨1, 0⟩, ⟨0, 0⟩, ⟨255, 255, 255, 255⟩, 0⟩,
         ⟨⟨1, 1⟩, ⟨0, 0⟩, ⟨255, 255, 255, 255⟩, 0⟩,
         ⟨⟨0, 1⟩, ⟨0, 0⟩, ⟨255, 255, 255, 255⟩, 0⟩])) :=
  ⟨by with_unfolding_all decide,
   ((tessellator_meshes_structurally_valid
      [⟨⟨⟨0, 0⟩, ⟨1, 1⟩⟩, .rect ⟨⟨⟨0, 0⟩, ⟨1, 1⟩⟩, ⟨255, 255, 255, 255⟩, none⟩⟩]
      ⟨16, 16⟩
      (ClippedMesh.mk ⟨⟨0, 0⟩, ⟨1, 1⟩⟩
        ⟨[⟨⟨0, 0⟩, ⟨0, 0⟩, ⟨255, 255, 255, 255⟩, 0⟩,
          ⟨⟨1, 0⟩, ⟨0, 0⟩, ⟨255, 255, 255, 255⟩, 0⟩,
          ⟨⟨1, 1⟩, ⟨0, 0⟩, ⟨255, 255, 255, 255⟩, 0⟩,
          ⟨⟨0, 1⟩, ⟨0, 0⟩, ⟨255, 255, 255, 255⟩, 0⟩],
         [0, 1, 3, 1, 2, 3], 0⟩)
      (by with_unfolding_all decide)).1)⟩

/-! ## C7 — batch merging -/

namespace Tessellator

theorem convertRectPrimitive_textured (r : Rect) (c : Srgba) (t : RectTexture)
    (m : Mesh) : convertRectPrimitive ⟨r, c, some t⟩ m
      = { m.addRect r t.uv c t.layerIdx with textureId := t.textureId } := rfl

theorem convertRectPrimitive_isEmpty (p : RectPrimitive) (m : Mesh) :
    (convertRectPrimitive p m).isEmpty = false := by
  unfold convertRectPrimitive
  rcases p.texture with _ | t <;>
  · show ((m.addRect _ _ _ _).vertices.isEmpty && _) = false
    rw [show (m.addRect _ _ _ _).vertices = m.vertices ++ _ from rfl]
    simp [Mesh.addRect]

theorem convertRectPrimitive_textureId (r : Rect) (c : Srgba) (t : RectTexture)
    (m : Mesh) : (convertRectPrimitive ⟨r, c, some t⟩ m).textureId = t.textureId := rfl

theorem startNewMesh_nil (cp : ClippedPrimitive) : startNewMesh [] cp = true := rfl

theorem startNewMesh_concat (init : List ClippedMesh) (cr : Rect) (m : Mesh)
    (cp : ClippedPrimitive) :
    startNewMesh (init ++ [⟨cr, m⟩]) cp
      = !(decide (cr = cp.clipRect) &&
          decide (m.textureId = cp.primitive.textureId)) := by
  unfold startNewMesh
  rw [List.getLast?_concat]

/-- One `convert_clipped_primitive` step that starts a new batch. -/
theorem step_new (atlasSize : FontAtlasSize) (out : List ClippedMesh)
    (cp : ClippedPrimitive) (hclip : cp.clipRect.isEmpty = false)
    (hstart : startNewMesh out cp = true)
    (hne : (convertPrimitive cp.primitive atlasSize Mesh.empty).isEmpty = false) :
    convertClippedPrimitive atlasSize out cp
      = out ++ [⟨cp.clipRect, convertPrimitive cp.primitive atlasSize Mesh.empty⟩] := by
  unfold convertClippedPrimitive
  rw [hclip]
  simp only [Bool.false_eq_true, if_false, hstart, if_pos]
  unfold convertIntoLast
  rw [List.getLast?_concat]
  simp only [hne, Bool.false_eq_true, if_false, List.dropLast_concat]

/-- One `convert_clipped_primitive` step that merges into the last batch. -/
theorem step_merge (atlasSize : FontAtlasSize) (init : List ClippedMesh)
    (cr : Rect) (m : Mesh) (cp : ClippedPrimitive)
    (hclip : cp.clipRect.isEmpty = false)
    (hcr : cr = cp.clipRect) (htex : m.textureId = cp.primitive.textureId)
    (hne : (convertPrimitive cp.primitive atlasSize m).isEmpty = false) :
    convertClippedPrimitive atlasSize (init ++ [⟨cr, m⟩]) cp
      = init ++ [⟨cr, convertPrimitive cp.primitive atlasSize m⟩] := by
  unfold convertClippedPrimitive
  rw [hclip]
  simp only [Bool.false_eq_true, if_false, startNewMesh_concat,
    decide_eq_true hcr, decide_eq_true htex, Bool.and_self, Bool.not_true, if_false]
  unfold convertIntoLast
  rw [List.getLast?_concat]
  simp only [hne, Bool.false_eq_true, if_false, List.dropLast_concat]

end Tessellator

/-- Claim C7: the four-primitive stream `Rect(clipA,texX), Rect(clipA,texX),
Rect(clipA,texY), Rect(clipB,texY)` — `clipA`, `clipB` nonempty and
distinct, `texX ≠ texY` — tessellates into exactly 3 mesh batches in that
order, `(clipA,texX)`, `(clipA,texY)`, `(clipB,texY)`, where the first
batch holds the geometry of both `Rect(clipA,texX)` primitives: 8 vertices
and 12 indices. -/
theorem batch_merging (clipA clipB : Rect) (texX texY : ℕ)
    (t1 t2 t3 t4 : RectTexture) (r1 r2 r3 r4 : Rect) (c1 c2 c3 c4 : Srgba)
    (atlasSize : FontAtlasSize)
    (hA : clipA.isEmpty = false) (hB : clipB.isEmpty = false)
    (hAB : clipA ≠ clipB) (hXY : texX ≠ texY)
    (ht1 : t1.textureId = texX) (ht2 : t2.textureId = texX)
    (ht3 : t3.textureId = texY) (ht4 : t4.textureId = texY) :
    Tessellator.convertClippedPrimitives
      [⟨clipA, .rect ⟨r1, c1, some t1⟩⟩, ⟨clipA, .rect ⟨r2, c2, some t2⟩⟩,
       ⟨clipA, .rect ⟨r3, c3, some t3⟩⟩, ⟨clipB, .rect ⟨r4, c4, some t4⟩⟩] atlasSize
      = [⟨clipA, Tessellator.convertRectPrimitive ⟨r2, c2, some t2⟩
            (Tessellator.convertRectPrimitive ⟨r1, c1, some t1⟩ Mesh.empty)⟩,
         ⟨clipA, Tessellator.convertRectPrimitive ⟨r3, c3, some t3⟩ Mesh.empty⟩,
         ⟨clipB, Tessellator.convertRectPrimitive ⟨r4, c4, some t4⟩ Mesh.empty⟩] ∧
    (Tessellator.convertRectPrimitive ⟨r2, c2, some t2⟩
        (Tessellator.convertRectPrimitive ⟨r1, c1, some t1⟩ Mesh.empty)).vertices.length
      = 8 ∧
    (Tessellator.convertRectPrimitive ⟨r2, c2, some t2⟩
        (Tessellator.convertRectPrimitive ⟨r1, c1, some t1⟩ Mesh.empty)).indices
      = [0, 1, 3, 1, 2, 3, 4, 5, 7, 5, 6, 7] ∧
    (Tessellator.convertRectPrimitive ⟨r2, c2, some t2⟩
        (Tessellator.convertRectPrimitive ⟨r1, c1, some t1⟩ Mesh.empty)).textureId = texX ∧
    (Tessellator.convertRectPrimitive ⟨r3, c3, some t3⟩ Mesh.empty).textureId = texY ∧
    (Tessellator.convertRectPrimitive ⟨r4, c4, some t4⟩ Mesh.empty).textureId = texY := by
  refine ⟨?_, rfl, rfl, ht2, ht3, ht4⟩
  have e1 : Tessellator.convertClippedPrimitive atlasSize []
      ⟨clipA, .rect ⟨r1, c1, some t1⟩⟩
      = [⟨clipA, Tessellator.convertRectPrimitive ⟨r1, c1, some t1⟩ Mesh.empty⟩] := by
    have := Tessellator.step_new atlasSize [] ⟨clipA, .rect ⟨r1, c1, some t1⟩⟩ hA
      (Tessellator.startNewMesh_nil _)
      (Tessellator.convertRectPrimitive_isEmpty ⟨r1, c1, some t1⟩ Mesh.empty)
    simpa using this
  have e2 : Tessellator.convertClippedPrimitive atlasSize
      [⟨clipA, Tessellator.convertRectPrimitive ⟨r1, c1, some t1⟩ Mesh.empty⟩]
      ⟨clipA, .rect ⟨r2, c2, some t2⟩⟩
      = [⟨clipA, Tessellator.convertRectPrimitive ⟨r2, c2, some t2⟩
            (Tessellator.convertRectPrimitive ⟨r1, c1, some t1⟩ Mesh.empty)⟩] := by
    have := Tessellator.step_merge atlasSize []
      clipA (Tessellator.convertRectPrimitive ⟨r1, c1, some t1⟩ Mesh.empty)
      ⟨clipA, .rect ⟨r2, c2, some t2⟩⟩ hA rfl
      (by rw [Tessellator.convertRectPrimitive_textureId, ht1]
          show texX = t2.textureId
          rw [ht2])
      (Tessellator.convertRectPrimitive_isEmpty ⟨r2, c2, some t2⟩ _)
    simpa using this
  have e3 : Tessellator.convertClippedPrimitive atlasSize
      [⟨clipA, Tessellator.convertRectPrimitive ⟨r2, c2, some t2⟩
          (Tessellator.convertRectPrimitive ⟨r1, c1, some t1⟩ Mesh.empty)⟩]
      ⟨clipA, .rect ⟨r3, c3, some t3⟩⟩
      = [⟨clipA, Tessellator.convertRectPrimitive ⟨r2, c2, some t2⟩
            (Tessellator.convertRectPrimitive ⟨r1, c1, some t1⟩ Mesh.empty)⟩,
         ⟨clipA, Tessellator.convertRectPrimitive ⟨r3, c3, some t3⟩ Mesh.empty⟩] := by
    have := Tessellator.step_new atlasSize
      [⟨clipA, Tessellator.convertRectPrimitive ⟨r2, c2, some t2⟩
          (Tessellator.convertRectPrimitive ⟨r1, c1, some t1⟩ Mesh.empty)⟩]
      ⟨clipA, .rect ⟨r3, c3, some t3⟩⟩ hA
      (by
        rw [show ([⟨clipA, Tessellator.convertRectPrimitive ⟨r2, c2, some t2⟩
            (Tessellator.convertRectPrimitive ⟨r1, c1, some t1⟩ Mesh.empty)⟩]
            : List ClippedMesh)
          = [] ++ [⟨clipA, Tessellator.convertRectPrimitive ⟨r2, c2, some t2⟩
              (Tessellator.convertRectPrimitive ⟨r1, c1, some t1⟩ Mesh.empty)⟩]
          from rfl, Tessellator.startNewMesh_concat]
        have : (Tessellator.convertRectPrimitive ⟨r2, c2, some t2⟩
            (Tessellator.convertRectPrimitive ⟨r1, c1, some t1⟩ Mesh.empty)).textureId
            ≠ (DrawPrimitive.rect ⟨r3, c3, some t3⟩).textureId := by
          rw [Tessellator.convertRectPrimitive_textureId, ht2]
          show texX ≠ t3.textureId
          rw [ht3]
          exact hXY
        simp [this])
      (Tessellator.convertRectPrimitive_isEmpty ⟨r3, c3, some t3⟩ Mesh.empty)
    simpa using this
  have e4 : Tessellator.convertClippedPrimitive atlasSize
      [⟨clipA, Tessellator.convertRectPrimitive ⟨r2, c2, some t2⟩
          (Tessellator.convertRectPrimitive ⟨r1, c1, some t1⟩ Mesh.empty)⟩,
       ⟨clipA, Tessellator.convertRectPrimitive ⟨r3, c3, some t3⟩ Mesh.empty⟩]
      ⟨clipB, .rect ⟨r4, c4, some t4⟩⟩
      = [⟨clipA, Tessellator.convertRectPrimitive ⟨r2, c2, some t2⟩
            (Tessellator.convertRectPrimitive ⟨r1, c1, some t1⟩ Mesh.empty)⟩,
         ⟨clipA, Tessellator.convertRectPrimitive ⟨r3, c3, some t3⟩ Mesh.empty⟩,
         ⟨clipB, Tessellator.convertRectPrimitive ⟨r4, c4, some t4⟩ Mesh.empty⟩] := by
    have := Tessellator.step_new atlasSize
      [⟨clipA, Tessellator.convertRectPrimitive ⟨r2, c2, some t2⟩
          (Tessellator.convertRectPrimitive ⟨r1, c1, some t1⟩ Mesh.empty)⟩,
       ⟨clipA, Tessellator.convertRectPrimitive ⟨r3, c3, some t3⟩ Mesh.empty⟩]
      ⟨clipB, .rect ⟨r4, c4, some t4⟩⟩ hB
      (by
        rw [show ([⟨clipA, Tessellator.convertRectPrimitive ⟨r2, c2, some t2⟩
              (Tessellator.convertRectPrimitive ⟨r1, c1, some t1⟩ Mesh.empty)⟩,
            ⟨clipA, Tessellator.convertRectPrimitive ⟨r3, c3, some t3⟩ Mesh.empty⟩]
            : List ClippedMesh)
          = [⟨clipA, Tessellator.convertRectPrimitive ⟨r2, c2, some t2⟩
              (Tessellator.convertRectPrimitive ⟨r1, c1, some t1⟩ Mesh.empty)⟩]
            ++ [⟨clipA, Tessellator.convertRectPrimitive ⟨r3, c3, some t3⟩ Mesh.empty⟩]
          from rfl, Tessellator.startNewMesh_concat]
        simp [hAB])
      (Tessellator.convertRectPrimitive_isEmpty ⟨r4, c4, some t4⟩ Mesh.empty)
    simpa using this
  show Tessellator.convertClippedPrimitive atlasSize
      (Tessellator.convertClippedPrimitive atlasSize
        (Tessellator.convertClippedPrimitive atlasSize
          (Tessellator.convertClippedPrimitive atlasSize []
            ⟨clipA, .rect ⟨r1, c1, some t1⟩⟩)
          ⟨clipA, .rect ⟨r2, c2, some t2⟩⟩)
        ⟨clipA, .rect ⟨r3, c3, some t3⟩⟩)
      ⟨clipB, .rect ⟨r4, c4, some t4⟩⟩ = _
  rw [e1, e2, e3, e4]

theorem batch_merging_witness :
    ((Rect.mk ⟨0, 0⟩ ⟨4, 4⟩).isEmpty = false ∧
     (Rect.mk ⟨1, 1⟩ ⟨5, 5⟩).isEmpty = false ∧
     (Rect.mk ⟨0, 0⟩ ⟨4, 4⟩) ≠ (Rect.mk ⟨1, 1⟩ ⟨5, 5⟩) ∧
     (7 : ℕ) ≠ 8) ∧
    Tessellator.convertClippedPrimitives
      [⟨⟨⟨0, 0⟩, ⟨4, 4⟩⟩, .rect ⟨⟨⟨0, 0⟩, ⟨1, 1⟩⟩, ⟨1, 2, 3, 4⟩, some ⟨7, Rect.defaultUv, 0⟩⟩⟩,
       ⟨⟨⟨0, 0⟩, ⟨4, 4⟩⟩, .rect ⟨⟨⟨1, 0⟩, ⟨2, 1⟩⟩, ⟨1, 2, 3, 4⟩, some ⟨7, Rect.defaultUv, 0⟩⟩⟩,
       ⟨⟨⟨0, 0⟩, ⟨4, 4⟩⟩, .rect ⟨⟨⟨2, 0⟩, ⟨3, 1⟩⟩, ⟨1, 2, 3, 4⟩, some ⟨8, Rect.defaultUv, 0⟩⟩⟩,
       ⟨⟨⟨1, 1⟩, ⟨5, 5⟩⟩, .rect ⟨⟨⟨3, 0⟩, ⟨4, 1⟩⟩, ⟨1, 2, 3, 4⟩, some ⟨8, Rect.defaultUv, 0⟩⟩⟩]
      ⟨16, 16⟩
      = [⟨⟨⟨0, 0⟩, ⟨4, 4⟩⟩, Tessellator.convertRectPrimitive
            ⟨⟨⟨1, 0⟩, ⟨2, 1⟩⟩, ⟨1, 2, 3, 4⟩, some ⟨7, Rect.defaultUv, 0⟩⟩
            (Tessellator.convertRectPrimitive
              ⟨⟨⟨0, 0⟩, ⟨1, 1⟩⟩, ⟨1, 2, 3, 4⟩, some ⟨7, Rect.defaultUv, 0⟩⟩ Mesh.empty)⟩,
         ⟨⟨⟨0, 0⟩, ⟨4, 4⟩⟩, Tessellator.convertRectPrimitive
            ⟨⟨⟨2, 0⟩, ⟨3, 1⟩⟩, ⟨1, 2, 3, 4⟩, some ⟨8, Rect.defaultUv, 0⟩⟩ Mesh.empty⟩,
         ⟨⟨⟨1, 1⟩, ⟨5, 5⟩⟩, Tessellator.convertRectPrimitive
            ⟨⟨⟨3, 0⟩, ⟨4, 1⟩⟩, ⟨1, 2, 3, 4⟩, some ⟨8, Rect.defaultUv, 0⟩⟩ Mesh.empty⟩] :=
  ⟨⟨by with_unfolding_all decide, by with_unfolding_all decide,
    by with_unfolding_all decide, by decide⟩,
   (batch_merging ⟨⟨0, 0⟩, ⟨4, 4⟩⟩ ⟨⟨1, 1⟩, ⟨5, 5⟩⟩ 7 8
      ⟨7, Rect.defaultUv, 0⟩ ⟨7, Rect.defaultUv, 0⟩ ⟨8, Rect.defaultUv, 0⟩ ⟨8, Rect.defaultUv, 0⟩
      ⟨⟨0, 0⟩, ⟨1, 1⟩⟩ ⟨⟨1, 0⟩, ⟨2, 1⟩⟩ ⟨⟨2, 0⟩, ⟨3, 1⟩⟩ ⟨⟨3, 0⟩, ⟨4, 1⟩⟩
      ⟨1, 2, 3, 4⟩ ⟨1, 2, 3, 4⟩ ⟨1, 2, 3, 4⟩ ⟨1, 2, 3, 4⟩ ⟨16, 16⟩
      (by with_unfolding_all decide) (by with_unfolding_all decide)
      (by with_unfolding_all decide) (by decide)
      rfl rfl rfl rfl).1⟩

/-! ## C1 — consume_layers ordering -/

namespace LayerKey

theorem lt_trans' {a b c : LayerKey} (h1 : lt a b) (h2 : lt b c) : lt a c := by
  unfold lt at *
  omega

theorem lt_ne {a b : LayerKey} (h : lt a b) : a ≠ b := by
  intro heq
  subst heq
  unfold lt at h
  omega

theorem lt_of_not_eq_not_lt {a b : LayerKey} (h1 : ¬ a = b) (h2 : ¬ lt a b) :
    lt b a := by
  rw [Prod.ext_iff, not_and_or] at h1
  unfold lt at *
  omega

theorem le_of_lt {a b : LayerKey} (h : lt a b) : le a b := by
  unfold lt at h
  unfold le
  omega

theorem le_rfl' (a : LayerKey) : le a a := by
  unfold le
  omega

end LayerKey

namespace Layers

theorem flatMap_map_snd (xs : List (LayerKey × List ClippedPrimitive)) :
    xs.flatMap (·.2)
      = (xs.flatMap fun kps => kps.2.map fun p => (kps.1, p)).map Prod.snd := by
  induction xs with
  | nil => rfl
  | cons x xs ih =>
    rw [List.flatMap_cons, List.flatMap_cons, List.map_append, List.map_map, ih]
    congr 1
    rw [show (Prod.snd ∘ fun p => (x.1, p)) = id from rfl, List.map_id]

theorem consumeLayers_fst (l : Layers) :
    (l.consumeLayers).1 = (l.consumeKeyed).map Prod.snd :=
  flatMap_map_snd l.layers

theorem btreePush_mem_keys (key : LayerKey) (p : ClippedPrimitive) :
    ∀ (xs : List (LayerKey × List ClippedPrimitive)) (b : LayerKey × List ClippedPrimitive),
      b ∈ btreePush key p xs → b.1 = key ∨ b.1 ∈ xs.map Prod.fst := by
  intro xs
  induction xs with
  | nil =>
    intro b hb
    simp only [btreePush, List.mem_singleton] at hb
    subst hb
    exact .inl rfl
  | cons x xs ih =>
    intro b hb
    unfold btreePush at hb
    split at hb
    · rcases List.mem_cons.mp hb with rfl | hb'
      · next heq => exact .inr (by simp [heq])
      · exact .inr (by right; exact List.mem_map.mpr ⟨b, hb', rfl⟩)
    · split at hb
      · rcases List.mem_cons.mp hb with rfl | hb'
        · exact .inl rfl
        · rcases List.mem_cons.mp hb' with rfl | hb''
          · exact .inr (by simp)
          · exact .inr (by right; exact List.mem_map.mpr ⟨b, hb'', rfl⟩)
      · rcases List.mem_cons.mp hb with rfl | hb'
        · exact .inr (by simp)
        · rcases ih b hb' with h | h
          · exact .inl h
          · exact .inr (by right; exact h)

theorem btreePush_pairwise (key : LayerKey) (p : ClippedPrimitive)
    (xs : List (LayerKey × List ClippedPrimitive))
    (hs : xs.Pairwise (fun a b => LayerKey.lt a.1 b.1)) :
    (btreePush key p xs).Pairwise (fun a b => LayerKey.lt a.1 b.1) := by
  induction xs with
  | nil => simp [btreePush]
  | cons x xs ih =>
    rw [List.pairwise_cons] at hs
    unfold btreePush
    split
    · next heq =>
      rw [List.pairwise_cons]
      exact ⟨hs.1, hs.2⟩
    · split
      · next hne hlt =>
        rw [List.pairwise_cons]
        constructor
        · intro b hb
          rcases List.mem_cons.mp hb with rfl | hb'
          · exact hlt
          · exact LayerKey.lt_trans' hlt (hs.1 b hb')
        · rw [List.pairwise_cons]
          exact ⟨hs.1, hs.2⟩
      · next hne hnlt =>
        rw [List.pairwise_cons]
        constructor
        · intro b hb
          rcases btreePush_mem_keys key p xs b hb with hk | hk
          · rw [hk]
            exact LayerKey.lt_of_not_eq_not_lt hne hnlt
          · rcases List.mem_map.mp hk with ⟨a, ha, hfst⟩
            rw [← hfst]
            exact hs.1 a ha
        · exact ih hs.2

theorem findBucket_eq_nil (k : LayerKey) :
    ∀ (xs : List (LayerKey × List ClippedPrimitive)),
      (∀ a ∈ xs, a.1 ≠ k) → findBucket k xs = [] := by
  intro xs
  induction xs with
  | nil => intro _; rfl
  | cons x xs ih =>
    intro hne
    unfold findBucket
    rw [if_neg (fun heq => hne x (List.mem_cons_self x xs) heq.symm)]
    exact ih fun a ha => hne a (List.mem_cons_of_mem x ha)

theorem findBucket_btreePush_self (key : LayerKey) (p : ClippedPrimitive)
    (xs : List (LayerKey × List ClippedPrimitive))
    (hs : xs.Pairwise (fun a b => LayerKey.lt a.1 b.1)) :
    findBucket key (btreePush key p xs) = findBucket key xs ++ [p] := by
  induction xs with
  | nil => simp [btreePush, findBucket]
  | cons x xs ih =>
    rw [List.pairwise_cons] at hs
    unfold btreePush
    split
    · next heq =>
      unfold findBucket
      rw [if_pos heq, if_pos heq]
    · split
      · next hne hlt =>
        show findBucket key ((key, [p]) :: (x :: xs)) = _
        unfold findBucket
        rw [if_pos rfl, if_neg hne]
        rw [findBucket_eq_nil key xs
          (fun a ha => (LayerKey.lt_ne (LayerKey.lt_trans' hlt (hs.1 a ha))).symm)]
        rfl
      · next hne hnlt =>
        unfold findBucket
        rw [if_neg hne, if_neg hne]
        exact ih hs.2

theorem findBucket_btreePush_ne (key : LayerKey) (p : ClippedPrimitive)
    (k : LayerKey) (hk : k ≠ key) :
    ∀ xs : List (LayerKey × List ClippedPrimitive),
      findBucket k (btreePush key p xs) = findBucket k xs := by
  intro xs
  induction xs with
  | nil => simp [btreePush, findBucket, hk]
  | cons x xs ih =>
    unfold btreePush
    split
    · next heq =>
      unfold findBucket
      rw [if_neg (heq ▸ hk), if_neg (heq ▸ hk)]
    · split
      · unfold findBucket
        rw [if_neg hk]
        rfl
      · unfold findBucket
        split
        · rfl
        · exact ih

theorem push_layers (l : Layers) (cp : ClippedPrimitive) :
    (l.push cp).layers = btreePush l.currentLayer cp l.layers := rfl

/-- The per-key bucket invariant carried through a command run: sortedness
of the bucket map, and each bucket holding exactly the subsequence of the
insertion-order trace bucketed under its key. -/
theorem run_invariant (cmds : List LayersCmd) :
    ∀ (st : Layers) (tr : List (LayerKey × ClippedPrimitive)),
      st.layers.Pairwise (fun a b => LayerKey.lt a.1 b.1) →
      (∀ k, findBucket k st.layers
        = ((tr.filter (fun e => e.1 = k)).map Prod.snd)) →
      (st.run cmds).layers.Pairwise (fun a b => LayerKey.lt a.1 b.1) ∧
      ∀ k, findBucket k (st.run cmds).layers
        = (((tr ++ st.trace cmds).filter (fun e => e.1 = k)).map Prod.snd) := by
  induction cmds with
  | nil =>
    intro st tr hs hb
    refine ⟨hs, fun k => ?_⟩
    rw [show st.run [] = st from rfl, show st.trace [] = [] from rfl, List.append_nil]
    exact hb k
  | cons c cs ih =>
    intro st tr hs hb
    have hpush : ∀ cp : ClippedPrimitive,
        (btreePush st.currentLayer cp st.layers).Pairwise
          (fun a b => LayerKey.lt a.1 b.1) ∧
        ∀ k, findBucket k (btreePush st.currentLayer cp st.layers)
          = (((tr ++ [(st.currentLayer, cp)]).filter (fun e => e.1 = k)).map
              Prod.snd) := by
      intro cp
      refine ⟨btreePush_pairwise _ _ _ hs, fun k => ?_⟩
      rw [List.filter_append, List.map_append]
      by_cases hk : k = st.currentLayer
      · subst hk
        rw [findBucket_btreePush_self _ _ _ hs, hb _]
        congr 1
        simp
      · have hnk : ¬ (st.currentLayer = k) := fun h => hk h.symm
        rw [findBucket_btreePush_ne _ _ _ hk, hb k]
        simp [hnk]
    cases c with
    | setViewport v => exact ih (st.setViewport v) tr hs hb
    | setDrawLayer a b => exact ih (st.setDrawLayer a b) tr hs hb
    | setDrawSublayer b => exact ih (st.setDrawSublayer b) tr hs hb
    | setDrawColor col => exact ih (st.setDrawColor col) tr hs hb
    | addRect p =>
      have hstep := hpush
        ⟨st.viewport, .rect (p.translate ⟨st.viewport.min.x, st.viewport.min.y⟩)⟩
      have hs2 : (st.addRect p).layers.Pairwise (fun a b => LayerKey.lt a.1 b.1) := hstep.1
      have hb2 : ∀ k, findBucket k (st.addRect p).layers
          = (((tr ++ [((st.currentLayer : LayerKey),
              (⟨st.viewport, DrawPrimitive.rect (p.translate ⟨st.viewport.min.x, st.viewport.min.y⟩)⟩
                : ClippedPrimitive))]).filter
                (fun e => e.1 = k)).map Prod.snd) := hstep.2
      have hrest := ih (st.addRect p) _ hs2 hb2
      refine ⟨hrest.1, fun k => ?_⟩
      have := hrest.2 k
      rw [List.append_assoc] at this
      exact this
    | addQuad p =>
      have hstep := hpush
        ⟨st.viewport, .quad (p.translate ⟨st.viewport.min.x, st.viewport.min.y⟩)⟩
      have hs2 : (st.addQuad p).layers.Pairwise (fun a b => LayerKey.lt a.1 b.1) := hstep.1
      have hb2 : ∀ k, findBucket k (st.addQuad p).layers
          = (((tr ++ [((st.currentLayer : LayerKey),
              (⟨st.viewport, DrawPrimitive.quad (p.translate ⟨st.viewport.min.x, st.viewport.min.y⟩)⟩
                : ClippedPrimitive))]).filter
                (fun e => e.1 = k)).map Prod.snd) := hstep.2
      have hrest := ih (st.addQuad p) _ hs2 hb2
      refine ⟨hrest.1, fun k => ?_⟩
      have := hrest.2 k
      rw [List.append_assoc] at this
      exact this
    | addText p habs =>
      have hstep := hpush
        ⟨st.viewport, .text (if habs then p
          else p.translate ⟨st.viewport.min.x, st.viewport.min.y⟩)⟩
      have hs2 : (st.addText p habs).layers.Pairwise
          (fun a b => LayerKey.lt a.1 b.1) := hstep.1
      have hb2 : ∀ k, findBucket k (st.addText p habs).layers
          = (((tr ++ [((st.currentLayer : LayerKey),
              (⟨st.viewport, DrawPrimitive.text (if habs then p
                else p.translate ⟨st.viewport.min.x, st.viewport.min.y⟩)⟩
                : ClippedPrimitive))]).filter
                (fun e => e.1 = k)).map Prod.snd) := hstep.2
      have hrest := ih (st.addText p habs) _ hs2 hb2
      refine ⟨hrest.1, fun k => ?_⟩
      have := hrest.2 k
      rw [List.append_assoc] at this
      exact this

theorem consumeKeyed_filter_aux (k : LayerKey) :
    ∀ (xs : List (LayerKey × List ClippedPrimitive)),
      xs.Pairwise (fun a b => LayerKey.lt a.1 b.1) →
      ((xs.flatMap fun kps => kps.2.map fun p => (kps.1, p)).filter
          (fun e => e.1 = k))
        = (findBucket k xs).map (fun p => (k, p)) := by
  intro xs
  induction xs with
  | nil => intro _; rfl
  | cons x xs ih =>
    intro hs
    rw [List.pairwise_cons] at hs
    rw [List.flatMap_cons, List.filter_append]
    by_cases hk : x.1 = k
    · subst hk
      have h1 : ((x.2.map fun p => (x.1, p)).filter (fun e => e.1 = x.1))
          = x.2.map fun p => (x.1, p) := by
        apply List.filter_eq_self.mpr
        intro e he
        rcases List.mem_map.mp he with ⟨a, _, rfl⟩
        simp
      have h2 : ((xs.flatMap fun kps => kps.2.map fun p => (kps.1, p)).filter
          (fun e => e.1 = x.1)) = [] := by
        apply List.filter_eq_nil_iff.mpr
        intro e he
        rcases List.mem_flatMap.mp he with ⟨kps, hkps, hmem⟩
        rcases List.mem_map.mp hmem with ⟨a, _, rfl⟩
        simpa using (LayerKey.lt_ne (hs.1 kps hkps)).symm
      rw [h1, h2]
      unfold findBucket
      rw [if_pos rfl, List.append_nil]
    · have h1 : ((x.2.map fun p => (x.1, p)).filter (fun e => e.1 = k)) = [] := by
        apply List.filter_eq_nil_iff.mpr
        intro e he
        rcases List.mem_map.mp he with ⟨a, _, rfl⟩
        simpa using hk
      rw [h1, List.nil_append, ih hs.2]
      have hfb : findBucket k (x :: xs) = findBucket k xs := by
        show (if k = x.1 then x.2 else findBucket k xs) = findBucket k xs
        rw [if_neg (fun heq => hk heq.symm)]
      rw [hfb]

theorem consumeKeyed_pairwise_aux :
    ∀ (xs : List (LayerKey × List ClippedPrimitive)),
      xs.Pairwise (fun a b => LayerKey.lt a.1 b.1) →
      (xs.flatMap fun kps => kps.2.map fun p => (kps.1, p)).Pairwise
        (fun a b => LayerKey.le a.1 b.1) := by
  intro xs
  induction xs with
  | nil => intro _; exact List.Pairwise.nil
  | cons x xs ih =>
    intro hs
    rw [List.pairwise_cons] at hs
    rw [List.flatMap_cons, List.pairwise_append]
    refine ⟨?_, ih hs.2, ?_⟩
    · rw [List.pairwise_map]
      exact List.pairwise_of_forall (fun _ _ => LayerKey.le_rfl' x.1)
    · intro a ha b hb
      rcases List.mem_map.mp ha with ⟨pa, _, rfl⟩
      rcases List.mem_flatMap.mp hb with ⟨kps, hkps, hmem⟩
      rcases List.mem_map.mp hmem with ⟨pb, _, rfl⟩
      exact LayerKey.le_of_lt (hs.1 kps hkps)

theorem filter_map_key (k : LayerKey) :
    ∀ tr : List (LayerKey × ClippedPrimitive),
      ((tr.filter (fun e => e.1 = k)).map Prod.snd).map (fun p => (k, p))
        = tr.filter (fun e => e.1 = k) := by
  intro tr
  induction tr with
  | nil => rfl
  | cons e tr ih =>
    by_cases hk : e.1 = k
    · rw [List.filter_cons_of_pos (by simpa using hk),
        List.map_cons, List.map_cons, ih]
      congr 1
      rw [← hk]
    · rw [List.filter_cons_of_neg (by simpa using hk)]
      exact ih

end Layers

/-- Claim C1: for every interleaving of `add_rect`/`add_quad`/`add_text`
with `set_draw_layer`/`set_draw_sublayer` (and the other `Layers` calls)
in a frame, the primitive stream returned by `Layers::consume_layers` is
the keyed stream stripped of its keys, the keyed stream is sorted by
ascending `(layer, sublayer)` key, and within each key the primitives
appear exactly in insertion (FIFO) order — the key-`k` subsequence of the
output equals the key-`k` subsequence of the insertion-order trace. -/
theorem consume_layers_ordering (cmds : List LayersCmd) :
    ((Layers.init.run cmds).consumeLayers).1
      = ((Layers.init.run cmds).consumeKeyed).map Prod.snd ∧
    ((Layers.init.run cmds).consumeKeyed).Pairwise
      (fun a b => LayerKey.le a.1 b.1) ∧
    ∀ k : LayerKey,
      ((Layers.init.run cmds).consumeKeyed).filter (fun e => e.1 = k)
        = (Layers.init.trace cmds).filter (fun e => e.1 = k) := by
  have hrun := Layers.run_invariant cmds Layers.init []
    (by simp [Layers.init]) (fun k => rfl)
  refine ⟨Layers.consumeLayers_fst _, Layers.consumeKeyed_pairwise_aux _ hrun.1, ?_⟩
  intro k
  show ((Layers.init.run cmds).layers.flatMap fun kps =>
      kps.2.map fun p => (kps.1, p)).filter (fun e => e.1 = k) = _
  rw [Layers.consumeKeyed_filter_aux k _ hrun.1, hrun.2 k]
  simpa using Layers.filter_map_key k (Layers.init.trace cmds)

end RPoB
